import Mathlib

/-!
Verification of the NomadCompass dashboard (Python/Streamlit repository)
against its natural-language specification.

The relevant Python functions are shallowly embedded as Lean definitions:
DataFrames become lists of record structures, numeric cell values become
rationals (`ℚ`), NaN cells become `Option ℚ` with `none` for NaN, and the
floating-point library primitives that have no exact rational meaning
(square root inside `pandas.std`, float `**` inside the population
projection, the internals of `sklearn.KMeans`) are taken as explicit
function parameters, so every theorem below holds for any realisation of
those primitives.
-/

namespace NomadCompass

/-! ## Common helpers: pandas-style aggregation on rational lists -/

/-- Arithmetic mean of a list of rationals (pandas `mean` on a non-empty,
NaN-free column); `0` on the empty list, which never occurs at use sites
because groups produced by `groupby` are non-empty. -/
def listMean (xs : List ℚ) : ℚ := xs.sum / xs.length

/-- pandas `Series.mean` over a column that may contain NaN (`none`):
NaN entries are skipped, and the result is NaN when no value remains. -/
def listMeanOpt (xs : List (Option ℚ)) : Option ℚ :=
  let vs := xs.reduceOption
  if vs.isEmpty then none else some (listMean vs)

/-- Sample variance with `ddof = 1` (the default of `pandas.std`, before the
final square root): NaN (`none`) when fewer than two values are present. -/
def sampleVar (xs : List ℚ) : Option ℚ :=
  if xs.length < 2 then none
  else some ((xs.map (fun x => (x - listMean xs) ^ 2)).sum / (xs.length - 1))

/-- `pandas.std` (ddof = 1): square root of the sample variance, where the
floating-point square root is an explicit parameter `sqrt`. -/
def sampleStd (sqrt : ℚ → ℚ) (xs : List ℚ) : Option ℚ :=
  (sampleVar xs).map sqrt

/-! ## `app/util/util.py` — `get_country_name` (claim C7)

```python
def get_country_name(alpha_3_code):
    try:
        return pycountry.countries.get(alpha_3=alpha_3_code).name
    except:
        return alpha_3_code  # fallback to code if not found
```

`pycountry.countries.get(alpha_3=code)` returns the country record when the
string resolves and `None` otherwise (raising for non-string input);
accessing `.name` on `None` raises `AttributeError`, which the bare
`except` catches. The registry is embedded as a function
`String → Option String` from alpha-3 codes to registered names. Inputs are
arbitrary Python values: strings, `None`, or anything else. -/

/-- A Python value passed to `get_country_name`: a string, `None`, or a
value of any other type. -/
inductive PyVal where
  | str : String → PyVal
  | pynone : PyVal
  | other : PyVal
deriving DecidableEq

/-- `util.get_country_name`, embedded over an abstract pycountry registry.
For a string input whose code resolves, the `.name` access succeeds; in
every other case an exception is raised inside `try` and the bare `except`
returns the input unchanged. -/
def get_country_name (registry : String → Option String) : PyVal → PyVal
  | .str s =>
      match registry s with
      | some name => .str name
      | none => .str s
  | v => v

/-! ## Loader error handling (claim C1)

The three loading functions are embedded as functions from the outcome of
their single I/O attempt to a trace recording how many I/O attempts were
made, which error messages were shown, whether an exception escaped the
function, and the resulting DataFrame (a list of rows, `[]` standing for
`pd.DataFrame()`). -/

/-- Result of one data-loading call: the number of read/request attempts
performed, the user-facing error/warning messages emitted, whether an
exception escaped, and the rows of the returned DataFrame. -/
structure LoadTrace (ρ : Type) where
  attempts : ℕ
  messages : List String
  raised : Bool
  result : List ρ
deriving DecidableEq

/-- Outcome of the single `pd.read_csv` attempt in `util.load_data`. -/
inductive CsvOutcome (ρ : Type) where
  | ok : List ρ → CsvOutcome ρ
  | fileNotFound : CsvOutcome ρ
  | otherError : String → CsvOutcome ρ
deriving DecidableEq

/-- `True` exactly on the failure outcomes of `util.load_data`. -/
def CsvOutcome.isFailure : CsvOutcome ρ → Bool
  | .ok _ => false
  | _ => true

/-- `app/util/util.py::load_data`: one `pd.read_csv` attempt; on
`FileNotFoundError` or any other exception, `st.error` is called and an
empty DataFrame is returned. -/
def load_data (path : String) : CsvOutcome ρ → LoadTrace ρ
  | .ok rows => ⟨1, [], false, rows⟩
  | .fileNotFound =>
      ⟨1, ["Error: The file was not found at " ++ path ++ ". Please check the path."],
        false, []⟩
  | .otherError e =>
      ⟨1, ["An error occurred loading " ++ path ++ ": " ++ e], false, []⟩

/-- Outcome of the single HTTP request plus XML decoding performed by
`data/etl/cpi_api_download.py::cpi_api_data`. -/
inductive ApiOutcome (ρ : Type) where
  | ok : List ρ → ApiOutcome ρ
  | requestError : String → ApiOutcome ρ
  | parseError : String → ApiOutcome ρ
  | noSeries : ApiOutcome ρ
deriving DecidableEq

/-- `True` exactly on the failure outcomes of an API loader. -/
def ApiOutcome.isFailure : ApiOutcome ρ → Bool
  | .ok _ => false
  | _ => true

/-- `data/etl/cpi_api_download.py::cpi_api_data`: a single
`requests.get`; `requests.exceptions.RequestException` and every other
exception are caught and an empty DataFrame is returned; when the XML has
no `Series` node the function falls through to the empty `processed_data`
branch and likewise returns an empty DataFrame. All messages are printed. -/
def cpi_api_data : ApiOutcome ρ → LoadTrace ρ
  | .ok rows => ⟨1, [], false, rows⟩
  | .requestError e => ⟨1, ["HTTP Request failed: " ++ e], false, []⟩
  | .parseError e => ⟨1, ["An error occurred: " ++ e], false, []⟩
  | .noSeries =>
      ⟨1, ["No 'Series' found in the XML response or unexpected structure.",
           "No data to create DataFrame. The API might have returned an empty dataset."],
        false, []⟩

/-- `data/etl/imf_granular_cpi_etl.py::granular_cpi_data`: a single
`requests.get` with timeout; timeout, connection, HTTP and other request
errors, pandas errors and any other exception are caught, a message is
printed, and an empty DataFrame is returned; an XML body without a
`Series` node returns an empty DataFrame from the `else` branch. -/
def granular_cpi_data : ApiOutcome ρ → LoadTrace ρ
  | .ok rows => ⟨1, [], false, rows⟩
  | .requestError e => ⟨1, ["An unexpected request error occurred: " ++ e], false, []⟩
  | .parseError e =>
      ⟨1, ["An unexpected error occurred during data processing: " ++ e], false, []⟩
  | .noSeries =>
      ⟨1, ["No 'Series' found in the XML response or unexpected structure. Check response content."],
        false, []⟩

end NomadCompass

namespace NomadCompass

/-- C7: `get_country_name` never raises; it returns the registered name when
the alpha-3 code resolves and returns its input unchanged otherwise
(unknown code, non-string input, or `None`). -/
theorem get_country_name_total_fallback (registry : String → Option String) (v : PyVal) :
    (∃ s n, v = .str s ∧ registry s = some n ∧
      get_country_name registry v = .str n) ∨
    get_country_name registry v = v := by
  cases v with
  | str s =>
      cases h : registry s with
      | none => right; simp [get_country_name, h]
      | some n => left; exact ⟨s, n, rfl, h, by simp [get_country_name, h]⟩
  | pynone => right; rfl
  | other => right; rfl

/-- C1: every data-loading failure (missing or unreadable CSV in
`load_data`; failed HTTP request, malformed XML, or unexpected XML
structure in `cpi_api_data` and `granular_cpi_data`) is caught: no
exception escapes, at least one user-facing message is emitted, the
returned DataFrame is empty, and exactly one read/request attempt is made
(no retries). -/
theorem loaders_fail_closed (path : String) (c : CsvOutcome ℕ) (a b : ApiOutcome ℕ) :
    ((load_data path c).raised = false ∧ (load_data path c).attempts = 1 ∧
      (c.isFailure = true →
        (load_data path c).result = [] ∧ (load_data path c).messages ≠ [])) ∧
    ((cpi_api_data a).raised = false ∧ (cpi_api_data a).attempts = 1 ∧
      (a.isFailure = true →
        (cpi_api_data a).result = [] ∧ (cpi_api_data a).messages ≠ [])) ∧
    ((granular_cpi_data b).raised = false ∧ (granular_cpi_data b).attempts = 1 ∧
      (b.isFailure = true →
        (granular_cpi_data b).result = [] ∧ (granular_cpi_data b).messages ≠ [])) := by
  refine ⟨?_, ?_, ?_⟩
  · cases c <;> simp [load_data, CsvOutcome.isFailure]
  · cases a <;> simp [cpi_api_data, ApiOutcome.isFailure]
  · cases b <;> simp [granular_cpi_data, ApiOutcome.isFailure]

/-- C1 witness: the failure branches at a concrete input — a missing CSV
file, an HTTP request error, and an unexpected-XML outcome. -/
theorem loaders_fail_closed_witness :
    ((load_data "data/world_population_data.csv"
        (CsvOutcome.fileNotFound : CsvOutcome ℕ)).result = [] ∧
      (load_data "data/world_population_data.csv"
        (CsvOutcome.fileNotFound : CsvOutcome ℕ)).messages ≠ []) ∧
    ((cpi_api_data (ApiOutcome.requestError "404" : ApiOutcome ℕ)).result = [] ∧
      (cpi_api_data (ApiOutcome.requestError "404" : ApiOutcome ℕ)).messages ≠ []) ∧
    ((granular_cpi_data (ApiOutcome.noSeries : ApiOutcome ℕ)).result = [] ∧
      (granular_cpi_data (ApiOutcome.noSeries : ApiOutcome ℕ)).messages ≠ []) := by
  obtain ⟨h1, h2, h3⟩ :=
    loaders_fail_closed "data/world_population_data.csv"
      (CsvOutcome.fileNotFound : CsvOutcome ℕ)
      (ApiOutcome.requestError "404") (ApiOutcome.noSeries)
  exact ⟨h1.2.2 (by decide), h2.2.2 (by decide), h3.2.2 (by decide)⟩

end NomadCompass

namespace NomadCompass

/-! ## Year-over-year CPI percent change (claim C4)

Embedding of the quarterly-CPI preprocessing shared by
`app/util/data_processing.py::load_and_preprocess_cpi_data`,
`app/sidebar_pages/aggregate_cpi_page.py` (sort by
`['COUNTRY_NAME', 'Time']`, then
`groupby('COUNTRY_NAME')['OBS_VALUE'].pct_change(periods=4) * 100`),
`app/sidebar_pages/categorical_cpi_page.py` (same sort, grouped by
`['COUNTRY_NAME', 'Category']`) and
`app/sidebar_pages/clustering_page.py` (sort by
`['COUNTRY_NAME', 'Category', 'Time']`, grouped by
`['COUNTRY_NAME', 'Category']`). A row carries the country name, the CPI
category, the quarter timestamp (as an integer quarter index) and the
observation value. -/

structure CpiObsRow where
  country : String
  category : String
  time : ℤ
  obs : ℚ
deriving DecidableEq

/-- Comparison used by `sort_values(['COUNTRY_NAME', 'Time'])`. -/
def leCountryTime (a b : CpiObsRow) : Bool :=
  decide (a.country < b.country) ||
    (decide (a.country = b.country) && decide (a.time ≤ b.time))

/-- Comparison used by `sort_values(['COUNTRY_NAME', 'Category', 'Time'])`. -/
def leCountryCategoryTime (a b : CpiObsRow) : Bool :=
  decide (a.country < b.country) ||
    (decide (a.country = b.country) &&
      (decide (a.category < b.category) ||
        (decide (a.category = b.category) && decide (a.time ≤ b.time))))

/-- `df.sort_values(['COUNTRY_NAME', 'Time'])`. -/
def sortByCountryTime (rows : List CpiObsRow) : List CpiObsRow :=
  rows.mergeSort leCountryTime

/-- `df.sort_values(['COUNTRY_NAME', 'Category', 'Time'])` (clustering page). -/
def sortByCountryCategoryTime (rows : List CpiObsRow) : List CpiObsRow :=
  rows.mergeSort leCountryCategoryTime

/-- pandas `Series.pct_change(periods=4)` on one group's value column:
each value is divided by the value four rows earlier; the first four
entries have no such predecessor and are NaN (`none`). -/
def pctChange4 (vals : List ℚ) : List (Option ℚ) :=
  List.replicate (min 4 vals.length) none ++
    ((vals.zip (vals.drop 4)).map fun p => some (p.2 / p.1 - 1))

/-- The `YoY_change` / `YoY_pct` column: `pct_change(periods=4) * 100`. -/
def yoyColumn (vals : List ℚ) : List (Option ℚ) :=
  (pctChange4 vals).map (Option.map (· * 100))

/-- The rows pandas `groupby('COUNTRY_NAME')` assigns to group `c`. -/
def countryGroup (rows : List CpiObsRow) (c : String) : List CpiObsRow :=
  rows.filter fun r => decide (r.country = c)

/-- The rows pandas `groupby(['COUNTRY_NAME', 'Category'])` assigns to
group `(c, g)`. -/
def countryCategoryGroup (rows : List CpiObsRow) (c g : String) : List CpiObsRow :=
  rows.filter fun r => decide (r.country = c) && decide (r.category = g)

theorem length_pctChange4 (vals : List ℚ) :
    (pctChange4 vals).length = vals.length := by
  simp [pctChange4, List.length_drop]
  omega

theorem length_yoyColumn (vals : List ℚ) :
    (yoyColumn vals).length = vals.length := by
  simp [yoyColumn, length_pctChange4]

/-- Index-level characterisation of the YoY column. -/
theorem yoyColumn_eq_formula (vals : List ℚ) :
    yoyColumn vals =
      (List.range vals.length).map fun t =>
        if t < 4 then none
        else some ((vals.getD t 0 / vals.getD (t - 4) 0 - 1) * 100) := by
  apply List.ext_getElem
  · simp [length_yoyColumn]
  intro n h₁ h₂
  have hn : n < vals.length := by simpa [length_yoyColumn] using h₁
  rw [List.getElem_map, List.getElem_range]
  by_cases h4 : n < 4
  · have hrep : n < (List.replicate (min 4 vals.length) (none : Option ℚ)).length := by
      simp; omega
    simp only [yoyColumn, pctChange4, List.getElem_map]
    rw [List.getElem_append_left hrep]
    simp [h4]
  · have hlen4 : 4 ≤ vals.length := by omega
    have hrep : (List.replicate (min 4 vals.length) (none : Option ℚ)).length ≤ n := by
      simp; omega
    simp only [yoyColumn, pctChange4, List.getElem_map]
    rw [List.getElem_append_right hrep]
    have hzlen : n - (List.replicate (min 4 vals.length) (none : Option ℚ)).length <
        ((vals.zip (vals.drop 4)).map fun p => some (p.2 / p.1 - 1)).length := by
      simp [List.length_drop]; omega
    have hmin : min 4 vals.length = 4 := by omega
    have hz : n - 4 < (vals.zip (vals.drop 4)).length := by
      simp [List.length_drop]; omega
    simp only [List.length_replicate, hmin, List.getElem_map, List.getElem_zip,
      List.getElem_drop]
    have harith : 4 + (n - 4) = n := by omega
    have hb : n - 4 < vals.length := by omega
    have hgd1 : vals[n]? = some vals[n] := List.getElem?_eq_getElem hn
    have hgd2 : vals[n - 4]? = some vals[n - 4] := List.getElem?_eq_getElem hb
    simp [h4, harith, hgd1, hgd2]

theorem leCountryTime_trans (a b c : CpiObsRow) :
    leCountryTime a b = true → leCountryTime b c = true → leCountryTime a c = true := by
  simp only [leCountryTime, Bool.or_eq_true, Bool.and_eq_true, decide_eq_true_eq]
  rintro (h1 | ⟨h1, h1'⟩) (h2 | ⟨h2, h2'⟩)
  · exact Or.inl (lt_trans h1 h2)
  · exact Or.inl (h2 ▸ h1)
  · exact Or.inl (h1 ▸ h2)
  · exact Or.inr ⟨h1.trans h2, le_trans h1' h2'⟩

theorem leCountryTime_total (a b : CpiObsRow) :
    (leCountryTime a b || leCountryTime b a) = true := by
  simp only [leCountryTime, Bool.or_eq_true, Bool.and_eq_true, decide_eq_true_eq]
  rcases lt_trichotomy a.country b.country with h | h | h
  · exact Or.inl (Or.inl h)
  · rcases le_total a.time b.time with ht | ht
    · exact Or.inl (Or.inr ⟨h, ht⟩)
    · exact Or.inr (Or.inr ⟨h.symm, ht⟩)
  · exact Or.inr (Or.inl h)

theorem leCountryCategoryTime_trans (a b c : CpiObsRow) :
    leCountryCategoryTime a b = true → leCountryCategoryTime b c = true →
      leCountryCategoryTime a c = true := by
  simp only [leCountryCategoryTime, Bool.or_eq_true, Bool.and_eq_true, decide_eq_true_eq]
  rintro (h1 | ⟨h1, h1' | ⟨h1', h1''⟩⟩) (h2 | ⟨h2, h2' | ⟨h2', h2''⟩⟩)
  · exact Or.inl (lt_trans h1 h2)
  · exact Or.inl (h2 ▸ h1)
  · exact Or.inl (h2 ▸ h1)
  · exact Or.inl (h1 ▸ h2)
  · exact Or.inr ⟨h1.trans h2, Or.inl (lt_trans h1' h2')⟩
  · exact Or.inr ⟨h1.trans h2, Or.inl (h2' ▸ h1')⟩
  · exact Or.inl (h1 ▸ h2)
  · exact Or.inr ⟨h1.trans h2, Or.inl (h1' ▸ h2')⟩
  · exact Or.inr ⟨h1.trans h2, Or.inr ⟨h1'.trans h2', le_trans h1'' h2''⟩⟩

theorem leCountryCategoryTime_total (a b : CpiObsRow) :
    (leCountryCategoryTime a b || leCountryCategoryTime b a) = true := by
  simp only [leCountryCategoryTime, Bool.or_eq_true, Bool.and_eq_true, decide_eq_true_eq]
  rcases lt_trichotomy a.country b.country with h | h | h
  · exact Or.inl (Or.inl h)
  · rcases lt_trichotomy a.category b.category with hc | hc | hc
    · exact Or.inl (Or.inr ⟨h, Or.inl hc⟩)
    · rcases le_total a.time b.time with ht | ht
      · exact Or.inl (Or.inr ⟨h, Or.inr ⟨hc, ht⟩⟩)
      · exact Or.inr (Or.inr ⟨h.symm, Or.inr ⟨hc.symm, ht⟩⟩)
    · exact Or.inr (Or.inr ⟨h.symm, Or.inl hc⟩)
  · exact Or.inr (Or.inl h)

/-- A group cut out of a list sorted by a total transitive comparison that
refines the time order on the group is itself time-sorted. -/
theorem pairwise_time_of_sorted_filter (le : CpiObsRow → CpiObsRow → Bool)
    (htrans : ∀ a b c, le a b = true → le b c = true → le a c = true)
    (htotal : ∀ a b, (le a b || le b a) = true)
    (p : CpiObsRow → Bool)
    (himp : ∀ a b, p a = true → p b = true → le a b = true → a.time ≤ b.time)
    (rows : List CpiObsRow) :
    ((rows.mergeSort le).filter p).Pairwise fun a b => a.time ≤ b.time := by
  have hsorted : (rows.mergeSort le).Pairwise fun a b => le a b = true :=
    List.sorted_mergeSort htrans htotal rows
  have := hsorted.sublist (List.filter_sublist (l := rows.mergeSort le) (p := p))
  exact this.imp_of_mem fun {a b} ha hb hle =>
    himp a b (List.mem_filter.mp ha).2 (List.mem_filter.mp hb).2 hle

end NomadCompass

namespace NomadCompass

/-- C4: after sorting each country's quarterly CPI rows by time (every page
sorts before differencing, so every group is time-ordered), the
year-over-year column assigns row `t` of a group the value
`(OBS_VALUE(t) / OBS_VALUE(t - 4) - 1) * 100` and NaN (`none`) to the first
four rows; the group is keyed by country name on the aggregate page and by
country name and CPI category on the granular (categorical and clustering)
pages. -/
theorem yoy_change_groupwise (rows : List CpiObsRow) (c g : String) :
    ((countryGroup (sortByCountryTime rows) c).Pairwise fun a b => a.time ≤ b.time) ∧
    ((countryCategoryGroup (sortByCountryTime rows) c g).Pairwise
      fun a b => a.time ≤ b.time) ∧
    ((countryCategoryGroup (sortByCountryCategoryTime rows) c g).Pairwise
      fun a b => a.time ≤ b.time) ∧
    (∀ group : List CpiObsRow,
      group = countryGroup (sortByCountryTime rows) c ∨
      group = countryCategoryGroup (sortByCountryTime rows) c g ∨
      group = countryCategoryGroup (sortByCountryCategoryTime rows) c g →
      yoyColumn (group.map CpiObsRow.obs) =
        (List.range group.length).map fun t =>
          if t < 4 then none
          else some
            (((group.map CpiObsRow.obs).getD t 0 /
                (group.map CpiObsRow.obs).getD (t - 4) 0 - 1) * 100)) := by
  refine ⟨?_, ?_, ?_, ?_⟩
  · exact pairwise_time_of_sorted_filter leCountryTime leCountryTime_trans
      leCountryTime_total _
      (fun a b ha hb hle => by
        have hac : a.country = c := by simpa using ha
        have hbc : b.country = c := by simpa using hb
        simp only [leCountryTime, Bool.or_eq_true, Bool.and_eq_true,
          decide_eq_true_eq] at hle
        rcases hle with h | ⟨_, h⟩
        · rw [hac, hbc] at h; exact absurd h (lt_irrefl c)
        · exact h) rows
  · exact pairwise_time_of_sorted_filter leCountryTime leCountryTime_trans
      leCountryTime_total _
      (fun a b ha hb hle => by
        simp only [Bool.and_eq_true, decide_eq_true_eq] at ha hb
        simp only [leCountryTime, Bool.or_eq_true, Bool.and_eq_true,
          decide_eq_true_eq] at hle
        rcases hle with h | ⟨_, h⟩
        · rw [ha.1, hb.1] at h; exact absurd h (lt_irrefl c)
        · exact h) rows
  · exact pairwise_time_of_sorted_filter leCountryCategoryTime
      leCountryCategoryTime_trans leCountryCategoryTime_total _
      (fun a b ha hb hle => by
        simp only [Bool.and_eq_true, decide_eq_true_eq] at ha hb
        simp only [leCountryCategoryTime, Bool.or_eq_true, Bool.and_eq_true,
          decide_eq_true_eq] at hle
        rcases hle with h | ⟨_, h | ⟨_, h⟩⟩
        · rw [ha.1, hb.1] at h; exact absurd h (lt_irrefl c)
        · rw [ha.2, hb.2] at h; exact absurd h (lt_irrefl g)
        · exact h) rows
  · intro group _
    have := yoyColumn_eq_formula (group.map CpiObsRow.obs)
    simpa using this

end NomadCompass

namespace NomadCompass

/-! ## `app/util/my_math.py::apply_iqr_outlier_filter` (claim C8)

A DataFrame row is an association list from column names to rational cell
values; the frame carries its column list. `Series.quantile` uses pandas'
default linear interpolation between order statistics, which is exact on
rationals. The loop walks `columns_to_filter` in order, keeping the running
`filtered_df`; a column is filtered when it is present in the frame and at
least 4 rows remain, a non-empty frame with fewer than 4 rows is passed
over, and an empty frame stops the loop (`break`). -/

/-- One DataFrame row: column name ↦ cell value. -/
abbrev IqrRow := List (String × ℚ)

/-- Cell value of row `r` in column `c` (`0` default is never consulted at
filtering sites, which guard on column presence). -/
def rowVal (r : IqrRow) (c : String) : ℚ :=
  ((r.find? fun p => decide (p.1 = c)).map Prod.snd).getD 0

/-- A DataFrame: its columns and its rows. -/
structure IqrDF where
  cols : List String
  rows : List IqrRow

/-- pandas `Series.quantile(p)` with the default linear interpolation:
on the sorted values `v_0 ≤ … ≤ v_(n-1)`, with `pos = p·(n-1)`,
`i = ⌊pos⌋` and `γ = pos - i`, the result is `v_i + γ·(v_(i+1) - v_i)`. -/
def quantileLinear (p : ℚ) (xs : List ℚ) : ℚ :=
  let s := xs.mergeSort fun a b => decide (a ≤ b)
  let pos : ℚ := p * ((s.length : ℚ) - 1)
  let i : ℕ := (Int.floor pos).toNat
  let lo := s.getD i 0
  let hi := s.getD (i + 1) lo
  lo + (pos - (i : ℚ)) * (hi - lo)

/-- The predicate `lower_bound <= value <= upper_bound` of one filtering
step, with `Q1`, `Q3`, `IQR` computed from the values of column `col` over
the rows remaining at this step. -/
def iqrKeep (m : ℚ) (col : String) (rows : List IqrRow) (r : IqrRow) : Bool :=
  let vals := rows.map fun x => rowVal x col
  let q1 := quantileLinear (1 / 4) vals
  let q3 := quantileLinear (3 / 4) vals
  let iqr := q3 - q1
  decide (q1 - m * iqr ≤ rowVal r col) && decide (rowVal r col ≤ q3 + m * iqr)

/-- The `for col in columns_to_filter` loop of `apply_iqr_outlier_filter`:
filter when the column exists and at least 4 rows remain; otherwise pass
(non-empty frame) or `break` (empty frame). -/
def iqrLoop (schema : List String) (m : ℚ) : List String → List IqrRow → List IqrRow
  | [], rows => rows
  | col :: rest, rows =>
      if decide (col ∈ schema) && decide (4 ≤ rows.length) then
        iqrLoop schema m rest (rows.filter (iqrKeep m col rows))
      else if rows.length = 0 then rows
      else iqrLoop schema m rest rows

/-- `app/util/my_math.py::apply_iqr_outlier_filter`: returns the filtered
rows together with `removed_rows = initial_rows - len(filtered_df)`. -/
def apply_iqr_outlier_filter (df : IqrDF) (columnsToFilter : List String) (m : ℚ) :
    List IqrRow × ℤ :=
  let filtered := iqrLoop df.cols m columnsToFilter df.rows
  (filtered, (df.rows.length : ℤ) - (filtered.length : ℤ))

theorem iqrLoop_sublist (schema : List String) (m : ℚ) (cols : List String) :
    ∀ rows : List IqrRow, (iqrLoop schema m cols rows).Sublist rows := by
  induction cols with
  | nil => intro rows; exact List.Sublist.refl rows
  | cons col rest ih =>
      intro rows
      simp only [iqrLoop]
      split
      · exact (ih _).trans (List.filter_sublist _)
      · split
        · exact List.Sublist.refl rows
        · exact ih rows

/-- C8: the filtered rows are a subset (sublist) of the input rows, the
removed count is the non-negative difference of lengths, and the columns
are processed in list order: a column in the frame is filtered exactly
when at least 4 rows remain at that step, keeping the rows whose value
lies in `[Q1 - m·IQR, Q3 + m·IQR]` with the quartiles computed from the
rows remaining at that step; otherwise the step leaves the rows unchanged
(stopping early only when no rows remain). -/
theorem apply_iqr_outlier_filter_spec (df : IqrDF) (columnsToFilter : List String) (m : ℚ) :
    (apply_iqr_outlier_filter df columnsToFilter m).1.Sublist df.rows ∧
    (apply_iqr_outlier_filter df columnsToFilter m).2 =
      (df.rows.length : ℤ) - (apply_iqr_outlier_filter df columnsToFilter m).1.length ∧
    0 ≤ (apply_iqr_outlier_filter df columnsToFilter m).2 ∧
    (∀ (col : String) (rest : List String) (rows : List IqrRow),
      (col ∈ df.cols ∧ 4 ≤ rows.length →
        iqrLoop df.cols m (col :: rest) rows =
          iqrLoop df.cols m rest (rows.filter (iqrKeep m col rows))) ∧
      (¬(col ∈ df.cols ∧ 4 ≤ rows.length) → rows ≠ [] →
        iqrLoop df.cols m (col :: rest) rows = iqrLoop df.cols m rest rows) ∧
      (¬(col ∈ df.cols ∧ 4 ≤ rows.length) → rows = [] →
        iqrLoop df.cols m (col :: rest) rows = rows)) := by
  refine ⟨iqrLoop_sublist df.cols m columnsToFilter df.rows, rfl, ?_, ?_⟩
  · have hle := (iqrLoop_sublist df.cols m columnsToFilter df.rows).length_le
    simp only [apply_iqr_outlier_filter]
    omega
  · intro col rest rows
    refine ⟨?_, ?_, ?_⟩
    · intro h
      simp only [iqrLoop]
      rw [if_pos]
      simp [h.1, h.2]
    · intro h hne
      simp only [iqrLoop]
      rw [if_neg, if_neg]
      · simpa using fun hl => hne (List.length_eq_zero.mp hl)
      · simpa using fun hc hl => h ⟨hc, hl⟩
    · intro h he
      subst he
      simp only [iqrLoop]
      rw [if_neg]
      · simp
      · simp

end NomadCompass

namespace NomadCompass

/-- C8 witness: the three step shapes at concrete inputs — a present column
with 4 rows is filtered against its step-local quartile bounds, an absent
column leaves a non-empty frame unchanged, and an empty frame stops. -/
theorem apply_iqr_outlier_filter_spec_witness :
    (("x" ∈ ["x"] ∧ 4 ≤
        ([[("x", (1 : ℚ))], [("x", 2)], [("x", 3)], [("x", 100)]] : List IqrRow).length) ∧
      iqrLoop ["x"] (3 / 2) ["x"]
          [[("x", (1 : ℚ))], [("x", 2)], [("x", 3)], [("x", 100)]] =
        iqrLoop ["x"] (3 / 2) []
          (([[("x", (1 : ℚ))], [("x", 2)], [("x", 3)], [("x", 100)]] : List IqrRow).filter
            (iqrKeep (3 / 2) "x"
              [[("x", (1 : ℚ))], [("x", 2)], [("x", 3)], [("x", 100)]]))) ∧
    (¬("y" ∈ ["x"] ∧ 4 ≤ ([[("x", (1 : ℚ))], [("x", 2)]] : List IqrRow).length) ∧
      ([[("x", (1 : ℚ))], [("x", 2)]] : List IqrRow) ≠ [] ∧
      iqrLoop ["x"] (3 / 2) ["y"] [[("x", (1 : ℚ))], [("x", 2)]] =
        iqrLoop ["x"] (3 / 2) [] [[("x", (1 : ℚ))], [("x", 2)]]) ∧
    (iqrLoop ["x"] (3 / 2) ["y"] ([] : List IqrRow) = []) := by
  refine ⟨⟨⟨by decide, by decide⟩, ?_⟩, ⟨by decide, by decide, ?_⟩, ?_⟩
  · exact ((apply_iqr_outlier_filter_spec
        ⟨["x"], [[("x", 1)], [("x", 2)], [("x", 3)], [("x", 100)]]⟩ ["x"] (3 / 2)).2.2.2
        "x" [] [[("x", 1)], [("x", 2)], [("x", 3)], [("x", 100)]]).1
      ⟨by decide, by decide⟩
  · exact ((apply_iqr_outlier_filter_spec
        ⟨["x"], [[("x", 1)], [("x", 2)]]⟩ ["y"] (3 / 2)).2.2.2
        "y" [] [[("x", 1)], [("x", 2)]]).2.1 (by decide) (by decide)
  · exact ((apply_iqr_outlier_filter_spec
        ⟨["x"], []⟩ ["y"] (3 / 2)).2.2.2 "y" [] []).2.2 (by decide) rfl

end NomadCompass

namespace NomadCompass

/-! ## Caching configuration (claim C5)

Which functions carry the `@st.cache_data` decorator, and what their work
is, read off the source:
- `app/util/util.py::load_data` — cached, reads a CSV file;
- `app/app.py::load_data` — cached, reads a CSV file;
- `app/sidebar_pages/population_page.py::load_population_data` — cached,
  reads a CSV file (via `util.load_data`);
- `app/util/data_processing.py::load_and_preprocess_cpi_data` — cached,
  fetches the remote CPI API (via `cpi_api_download.cpi_api_data`) and
  transforms;
- `app/util/data_processing.py::load_and_preprocess_population_data` —
  cached, reads a CSV file (via `util.load_data`);
- `app/util/data_processing.py::calculate_cpi_stability` — cached, pure
  in-memory aggregation (std of YoY change per country);
- `app/util/data_processing.py::prepare_cpi_population_scatter_data` —
  cached, pure in-memory aggregation and merge;
- `app/util/data_processing.py::merge_cpi_with_population_for_filtering` —
  cached, pure in-memory merge;
- `data/etl/cpi_api_download.py::cpi_api_data` — not cached, remote fetch;
- `data/etl/imf_granular_cpi_etl.py::granular_cpi_data` — not cached,
  remote fetch;
- `app/util/util.py::get_country_name` — not cached, pure;
- `app/util/my_math.py::population_projection` — not cached, pure;
- `app/util/my_math.py::apply_iqr_outlier_filter` — not cached, pure. -/

/-- One function of the app: its qualified name, whether it carries the
`@st.cache_data` decorator, whether its work is reading a local file, and
whether its work includes a remote HTTP fetch. -/
structure AppFunction where
  name : String
  cached : Bool
  readsFile : Bool
  fetchesRemote : Bool
deriving DecidableEq

/-- A pure in-memory transform: no file read and no remote fetch. -/
def AppFunction.isPureTransform (f : AppFunction) : Bool :=
  !f.readsFile && !f.fetchesRemote

/-- The decorator table of the repository (one entry per function listed
above, in that order). -/
def appFunctions : List AppFunction :=
  [⟨"app.util.util.load_data", true, true, false⟩,
   ⟨"app.app.load_data", true, true, false⟩,
   ⟨"app.sidebar_pages.population_page.load_population_data", true, true, false⟩,
   ⟨"app.util.data_processing.load_and_preprocess_cpi_data", true, false, true⟩,
   ⟨"app.util.data_processing.load_and_preprocess_population_data", true, true, false⟩,
   ⟨"app.util.data_processing.calculate_cpi_stability", true, false, false⟩,
   ⟨"app.util.data_processing.prepare_cpi_population_scatter_data", true, false, false⟩,
   ⟨"app.util.data_processing.merge_cpi_with_population_for_filtering", true, false, false⟩,
   ⟨"data.etl.cpi_api_download.cpi_api_data", false, false, true⟩,
   ⟨"data.etl.imf_granular_cpi_etl.granular_cpi_data", false, false, true⟩,
   ⟨"app.util.util.get_country_name", false, false, false⟩,
   ⟨"app.util.my_math.population_projection", false, false, false⟩,
   ⟨"app.util.my_math.apply_iqr_outlier_filter", false, false, false⟩]

/-- C5 counterexample: `calculate_cpi_stability` is a cached pure in-memory
transform, so caching is not applied only to file-reading functions and a
pure in-memory transform is cached. -/
theorem caching_only_file_reads_counterexample :
    ((⟨"app.util.data_processing.calculate_cpi_stability", true, false, false⟩ : AppFunction)
        ∈ appFunctions) ∧
    ¬(∀ f ∈ appFunctions,
        (f.cached = true → f.readsFile = true) ∧
        (f.isPureTransform = true → f.cached = false)) := by
  decide

/-- C5 amended: caching is applied to every file-reading function, but not
only to those — the cached functions that do not read a file are exactly
the remote-API preprocessing wrapper `load_and_preprocess_cpi_data` and
the pure in-memory transforms `calculate_cpi_stability`,
`prepare_cpi_population_scatter_data` and
`merge_cpi_with_population_for_filtering`. -/
theorem caching_extends_beyond_file_reads :
    (appFunctions.filter fun f => f.readsFile && !f.cached) = [] ∧
    ((appFunctions.filter fun f => f.cached && !f.readsFile).map AppFunction.name) =
      ["app.util.data_processing.load_and_preprocess_cpi_data",
       "app.util.data_processing.calculate_cpi_stability",
       "app.util.data_processing.prepare_cpi_population_scatter_data",
       "app.util.data_processing.merge_cpi_with_population_for_filtering"] := by
  constructor <;> rfl

end NomadCompass

namespace NomadCompass

/-! ## Clustering pipeline of `app/sidebar_pages/clustering_page.py`
(claims C3 and C6)

The pipeline after feature selection is a linear script; it is embedded as
the list of the numerical-library operations it performs, in program
order. `sklearn` internals are not part of the repository: `KMeans` is
represented by an abstract `core` function of the data, `n_clusters`, the
integer seed actually in effect, and `n_init` — faithful to sklearn, whose
result given a fixed integer `random_state` is a function of exactly these
arguments. `random_state=None` would instead draw from the ambient global
NumPy randomness, represented by `ambientSeed`. -/

/-- One library operation performed by the clustering page. -/
inductive Step where
  | scaleFeatures : Step
  | fitKMeans (k seed nInit : ℕ) : Step
  | recordInertia (k : ℕ) : Step
  | recordSilhouette (k : ℕ) : Step
  | finalFitKMeans (k seed nInit : ℕ) : Step
  | pcaProject (nComponents : ℕ) (clusterColumnExcluded : Bool) : Step
deriving DecidableEq

/-- The operations the clustering page performs, in program order
(`clustering_page`, steps 6–9): `StandardScaler().fit_transform` on the
selected features; then `for k in range(2, max_k + 1)` a
`KMeans(n_clusters=k, random_state=42, n_init=10).fit`, an append of
`kmeans.inertia_`, and (guarded by `if k > 1`) a `silhouette_score`;
then `KMeans(n_clusters=selected_k_final, random_state=42,
n_init=10).fit_predict`; then, only when more than 2 features are
selected, `PCA(n_components=2).fit_transform` on the scaled frame with the
`Cluster` column dropped. -/
def clusteringSteps (maxK finalK numSelectedFeatures : ℕ) : List Step :=
  [Step.scaleFeatures] ++
    ((List.range' 2 (maxK - 1)).flatMap fun k =>
      [Step.fitKMeans k 42 10, Step.recordInertia k] ++
        if 1 < k then [Step.recordSilhouette k] else []) ++
    [Step.finalFitKMeans finalK 42 10] ++
    if 2 < numSelectedFeatures then [Step.pcaProject 2 true] else []

/-- Modelled from the spec wording of C3, for comparison with
`clusteringSteps`: scale first; then, for every K in the contiguous range
from 2 up to the user-chosen maximum, fit K-Means and record inertia and
(for K > 1) the silhouette score; then fit K-Means at the user-chosen
final K; then, when more than 2 features are selected, project onto
exactly 2 PCA components with the cluster column excluded. -/
def clusteringStepsClaim (maxK finalK numSelectedFeatures : ℕ) : List Step :=
  [Step.scaleFeatures] ++
    (((List.range (maxK + 1)).filter fun k => decide (2 ≤ k)).flatMap fun k =>
      [Step.fitKMeans k 42 10, Step.recordInertia k] ++
        if 1 < k then [Step.recordSilhouette k] else []) ++
    [Step.finalFitKMeans finalK 42 10] ++
    if 2 < numSelectedFeatures then [Step.pcaProject 2 true] else []

theorem filter_range_eq_range' (n : ℕ) :
    ((List.range (n + 1)).filter fun k => decide (2 ≤ k)) = List.range' 2 (n - 1) := by
  induction n with
  | zero => rfl
  | succ n ih =>
      rw [List.range_succ, List.filter_append, ih]
      by_cases h2 : 2 ≤ n + 1
      · have hn : 1 ≤ n := by omega
        have : n - 1 + 1 = n + 1 - 1 := by omega
        rw [← this, List.range'_concat]
        simp [h2]
        omega
      · have hn : n = 0 := by omega
        subst hn
        simp

/-- C3: the pipeline executes scaling first, then fits K-Means recording
inertia and (for K > 1) silhouette for every K in the contiguous range
from 2 to the user-chosen maximum, then fits K-Means at the user-chosen
final K, and finally — exactly when more than 2 features are selected —
projects onto 2 PCA components with the cluster column excluded: the
program-order step list coincides with the step list described by the
specification. -/
theorem clustering_pipeline_order (maxK finalK numSelectedFeatures : ℕ) :
    clusteringSteps maxK finalK numSelectedFeatures =
      clusteringStepsClaim maxK finalK numSelectedFeatures := by
  unfold clusteringSteps clusteringStepsClaim
  rw [filter_range_eq_range']

/-- The `KMeans(...).fit_predict` library call: with a fixed integer
`random_state` the seed in effect is that integer; with
`random_state=None` it comes from the ambient NumPy randomness. -/
def kmeansFitPredict (core : List (List ℚ) → ℕ → ℕ → ℕ → List ℕ)
    (randomState : Option ℕ) (ambientSeed : ℕ)
    (x : List (List ℚ)) (nClusters nInit : ℕ) : List ℕ :=
  core x nClusters (randomState.getD ambientSeed) nInit

/-- The final clustering step of the page:
`KMeans(n_clusters=selected_k_final, random_state=42, n_init=10)
.fit_predict(X_scaled_df)`. -/
def finalClusterAssignment (core : List (List ℚ) → ℕ → ℕ → ℕ → List ℕ)
    (ambientSeed : ℕ) (xScaled : List (List ℚ)) (selectedKFinal : ℕ) : List ℕ :=
  kmeansFitPredict core (some 42) ambientSeed xScaled selectedKFinal 10

/-- C6: the final K-Means step is a deterministic function of the scaled
feature matrix and the chosen K — two runs under arbitrary (and different)
ambient randomness produce identical assignments, because the page pins
`random_state=42` and `n_init=10`. -/
theorem final_clustering_deterministic
    (core : List (List ℚ) → ℕ → ℕ → ℕ → List ℕ)
    (ambient₁ ambient₂ : ℕ) (xScaled : List (List ℚ)) (k : ℕ) :
    finalClusterAssignment core ambient₁ xScaled k =
      finalClusterAssignment core ambient₂ xScaled k ∧
    finalClusterAssignment core ambient₁ xScaled k = core xScaled k 42 10 := by
  exact ⟨rfl, rfl⟩

end NomadCompass


namespace NomadCompass

/-! ## `app/util/data_processing.py::merge_cpi_with_population_for_filtering`
(claim C9)

The CPI frame is quarterly, keyed by `COUNTRY_NAME` and `Year`; its
remaining columns are abstracted into a `payload` value carried unchanged.
The population frame arrives raw: its `Country/Territory`, `Year` and
`Population` cells may be NaN (`to_numeric(errors='coerce')`), so they are
`Option`-valued; the function renames `Country/Territory` to
`COUNTRY_NAME`, drops rows with NaN in `Population`, `Year` or
`COUNTRY_NAME`, casts `Year` with `astype(int)` (truncation toward zero),
and left-merges on `['COUNTRY_NAME', 'Year']`. The two return shapes —
the untouched CPI frame (no `Population` column) when population data is
unusable, and the merged frame otherwise — are kept apart with a sum
type. -/

/-- A quarterly CPI row: merge key plus all remaining columns abstracted
as one payload value. -/
structure CpiMergeRow where
  country : String
  year : ℤ
  payload : ℚ
deriving DecidableEq

/-- A raw world-population row (cells possibly NaN). -/
structure PopRawRow where
  countryTerritory : Option String
  year : Option ℚ
  population : Option ℚ
deriving DecidableEq

/-- The raw population DataFrame: its column list and rows. -/
structure PopDF where
  cols : List String
  rows : List PopRawRow
deriving DecidableEq

/-- `astype(int)` on a float column: truncation toward zero
(numerator divided by denominator with truncating integer division). -/
def qtrunc (q : ℚ) : ℤ := q.num.tdiv q.den

/-- A prepared population row after rename/`dropna`/`astype(int)`. -/
structure PopPrepRow where
  country : String
  year : ℤ
  population : ℚ
deriving DecidableEq

/-- The merge key of a prepared population row. -/
def PopPrepRow.key (p : PopPrepRow) : String × ℤ := (p.country, p.year)

/-- Rename `Country/Territory` → `COUNTRY_NAME`, coerce, drop rows with
NaN in `Population`, `Year` or `COUNTRY_NAME`, cast `Year` to int. -/
def preparePop (rows : List PopRawRow) : List PopPrepRow :=
  rows.filterMap fun r =>
    match r.countryTerritory, r.year, r.population with
    | some c, some y, some p => some ⟨c, qtrunc y, p⟩
    | _, _, _ => none

/-- Whether a prepared population row matches a CPI row's merge key. -/
def popMatches (r : CpiMergeRow) (p : PopPrepRow) : Bool :=
  decide (p.country = r.country) && decide (p.year = r.year)

/-- pandas `pd.merge(..., on=['COUNTRY_NAME', 'Year'], how='left')`: every
CPI row is kept; it is paired with each matching population row, or with
NaN (`none`) population when nothing matches. -/
def leftMergeOnCountryYear (cpi : List CpiMergeRow) (pop : List PopPrepRow) :
    List (CpiMergeRow × Option ℚ) :=
  cpi.flatMap fun r =>
    if ((pop.filter (popMatches r)).isEmpty : Bool) then [(r, none)]
    else (pop.filter (popMatches r)).map fun p => (r, some p.population)

/-- The columns the function requires of the population frame. -/
def requiredPopCols : List String := ["Country/Territory", "Year", "Population"]

/-- `merge_cpi_with_population_for_filtering`: a copy of the CPI frame
(`Sum.inl`, no `Population` column) when the population frame is empty or
lacks a required column; otherwise the left merge (`Sum.inr`). -/
def merge_cpi_with_population_for_filtering (cpi : List CpiMergeRow) (pop : PopDF) :
    List CpiMergeRow ⊕ List (CpiMergeRow × Option ℚ) :=
  if pop.rows.isEmpty then Sum.inl cpi
  else if requiredPopCols.all (fun c => pop.cols.contains c) then
    Sum.inr (leftMergeOnCountryYear cpi (preparePop pop.rows))
  else Sum.inl cpi

theorem leftMerge_row_of_nodup_keys (pop : List PopPrepRow)
    (hnd : (pop.map PopPrepRow.key).Nodup) (r : CpiMergeRow) :
    (if ((pop.filter (popMatches r)).isEmpty : Bool) then [(r, (none : Option ℚ))]
      else (pop.filter (popMatches r)).map fun p => (r, some p.population)) =
      [(r, (pop.find? (popMatches r)).map PopPrepRow.population)] := by
  induction pop with
  | nil => simp
  | cons p rest ih =>
      rcases List.nodup_cons.mp hnd with ⟨hnotmem, hndrest⟩
      by_cases hp : popMatches r p = true
      · have hkey : p.key = (r.country, r.year) := by
          simp only [popMatches, Bool.and_eq_true, decide_eq_true_eq] at hp
          simp [PopPrepRow.key, hp.1, hp.2]
        have hrestnil : rest.filter (popMatches r) = [] := by
          by_contra hne
          obtain ⟨q, hq⟩ := List.exists_mem_of_ne_nil _ hne
          have hqmem := List.mem_filter.mp hq
          have hqkey : q.key = (r.country, r.year) := by
            have h2 := hqmem.2
            simp only [popMatches, Bool.and_eq_true, decide_eq_true_eq] at h2
            simp [PopPrepRow.key, h2.1, h2.2]
          have hpmem : p.key ∈ rest.map PopPrepRow.key := by
            rw [hkey, ← hqkey]
            exact List.mem_map_of_mem _ hqmem.1
          exact hnotmem hpmem
        simp [List.filter_cons, List.find?_cons, hp, hrestnil]
      · have hp0 : popMatches r p = false := by
          cases hb : popMatches r p
          · rfl
          · exact absurd hb hp
        simp only [List.filter_cons, List.find?_cons, hp0, Bool.false_eq_true,
          if_false, cond_false]
        exact ih hndrest

/-- C9: when the population frame is empty or lacks one of
`Country/Territory`, `Year`, `Population`, the function returns the CPI
frame unchanged and without a `Population` column; otherwise, provided the
prepared population table has at most one row per `(COUNTRY_NAME, Year)`
key, the result pairs every CPI row — exactly once, in order, with all its
original values unchanged — with the matched population value, NaN
(`none`) when no row matched. (The CPI input itself is never mutated: the
embedding returns fresh values in both shapes.) -/
theorem merge_cpi_with_population_spec (cpi : List CpiMergeRow) (pop : PopDF) :
    (pop.rows = [] →
      merge_cpi_with_population_for_filtering cpi pop = Sum.inl cpi) ∧
    (requiredPopCols.all (fun c => pop.cols.contains c) = false →
      merge_cpi_with_population_for_filtering cpi pop = Sum.inl cpi) ∧
    (pop.rows ≠ [] →
      requiredPopCols.all (fun c => pop.cols.contains c) = true →
      ((preparePop pop.rows).map PopPrepRow.key).Nodup →
      merge_cpi_with_population_for_filtering cpi pop =
        Sum.inr (cpi.map fun r =>
          (r, ((preparePop pop.rows).find? (popMatches r)).map
            PopPrepRow.population))) := by
  refine ⟨?_, ?_, ?_⟩
  · intro h
    unfold merge_cpi_with_population_for_filtering
    rw [if_pos (by simp [h])]
  · intro h
    unfold merge_cpi_with_population_for_filtering
    by_cases he : pop.rows.isEmpty = true
    · rw [if_pos he]
    · rw [if_neg he, if_neg (by rw [h]; exact Bool.false_ne_true)]
  · intro hne hcols hnd
    unfold merge_cpi_with_population_for_filtering
    have he : ¬(pop.rows.isEmpty = true) := by
      cases hr : pop.rows with
      | nil => exact absurd hr hne
      | cons a as => simp [hr]
    rw [if_neg he, if_pos hcols]
    congr 1
    unfold leftMergeOnCountryYear
    induction cpi with
    | nil => rfl
    | cons r rest ihr =>
        simp only [List.flatMap_cons, List.map_cons, ihr,
          leftMerge_row_of_nodup_keys (preparePop pop.rows) hnd r,
          List.singleton_append]

end NomadCompass

namespace NomadCompass

/-- C9 witness: a population frame with all required columns and unique
keys merges onto two CPI rows — the matching row gains its population,
the other NaN — and a frame missing the `Population` column leaves the
CPI frame untouched. -/
theorem merge_cpi_with_population_spec_witness :
    (merge_cpi_with_population_for_filtering
        [⟨"France", 2020, 5⟩, ⟨"Chad", 2021, 7⟩]
        ⟨["Country/Territory", "Year", "Population"],
          [⟨some "France", some 2020, some 67⟩]⟩ =
      Sum.inr [(⟨"France", 2020, 5⟩, some 67), (⟨"Chad", 2021, 7⟩, none)]) ∧
    (merge_cpi_with_population_for_filtering
        [⟨"France", 2020, 5⟩]
        ⟨["Country/Territory", "Year"], [⟨some "France", some 2020, some 67⟩]⟩ =
      Sum.inl [⟨"France", 2020, 5⟩]) := by
  constructor
  · exact ((merge_cpi_with_population_spec
        [⟨"France", 2020, 5⟩, ⟨"Chad", 2021, 7⟩]
        ⟨["Country/Territory", "Year", "Population"],
          [⟨some "France", some 2020, some 67⟩]⟩).2.2
        (by decide) (by decide) (by decide)).trans (by decide)
  · exact (merge_cpi_with_population_spec
        [⟨"France", 2020, 5⟩]
        ⟨["Country/Territory", "Year"], [⟨some "France", some 2020, some 67⟩]⟩).2.1
      (by decide)

end NomadCompass

namespace NomadCompass

/-! ## `app/util/my_math.py::population_projection` (claim C10)

The function takes the raw population frame (whose `Year`, `Population`
and `Growth Rate` cells may become NaN under `to_numeric`), a list of
future years and a list of backcast years. It returns an empty frame when
the input is empty or misses a required column. Otherwise it iterates the
countries of the NaN-cleaned frame in first-appearance order
(`unique()`); for each country it appends the historical rows, then
future projections from the latest historical row (`idxmax` on `Year`,
first occurrence of the maximum), then backcasts from the earliest row —
both using the latest row's growth rate. Finally `Year` is cast with
`astype(int)`, duplicates on `['Country/Territory', 'Year']` are dropped
keeping the first occurrence, and rows are sorted by
`['Country/Territory', 'Year']`. The float `**` used by the projections
is the abstract parameter `rpow`; a backcast with growth rate −100 %
divides by zero and stores NaN, per the explicit guard in the source. -/

/-- A raw input row (cells possibly NaN after `to_numeric`). -/
structure ProjInRow where
  country : String
  year : Option ℚ
  population : Option ℚ
  growthRate : Option ℚ
deriving DecidableEq

/-- The raw input DataFrame with its column list. -/
structure ProjDF where
  cols : List String
  rows : List ProjInRow
deriving DecidableEq

/-- A row of `df_cleaned` after dropping NaNs in `Year`, `Population`,
`Growth Rate`. -/
structure ProjCleanRow where
  country : String
  year : ℚ
  population : ℚ
  growthRate : ℚ
deriving DecidableEq

/-- The `Type` tag the function writes into each output row. -/
inductive RowType where
  | historical
  | projectedFuture
  | projectedPast
deriving DecidableEq

/-- An output row before the final `astype(int)` on `Year`. -/
structure ProjOutRowQ where
  country : String
  year : ℚ
  population : Option ℚ
  growthRate : ℚ
  type : RowType
deriving DecidableEq

/-- An output row after `astype(int)` on `Year`. -/
structure ProjOutRow where
  country : String
  year : ℤ
  population : Option ℚ
  growthRate : ℚ
  type : RowType
deriving DecidableEq

/-- The `['Country/Territory', 'Year']` key of an output row. -/
def ProjOutRow.key (r : ProjOutRow) : String × ℤ := (r.country, r.year)

/-- `dropna(subset=['Year', 'Population', 'Growth Rate'])`. -/
def cleanRows (rows : List ProjInRow) : List ProjCleanRow :=
  rows.filterMap fun r =>
    match r.year, r.population, r.growthRate with
    | some y, some p, some g => some ⟨r.country, y, p, g⟩
    | _, _, _ => none

/-- pandas `Series.unique()` as a scan carrying the values already seen:
first-appearance order, duplicates removed. -/
def uniqueFirstAux (seen : List String) : List String → List String
  | [] => []
  | c :: rest =>
      if decide (c ∈ seen) then uniqueFirstAux seen rest
      else c :: uniqueFirstAux (c :: seen) rest

/-- pandas `Series.unique()`: first-appearance order, duplicates removed. -/
def uniqueFirst (l : List String) : List String := uniqueFirstAux [] l

/-- `df.loc[group['Year'].idxmax()]`: the first row of the group attaining
the maximal `Year`. -/
def argmaxYear (g : List ProjCleanRow) : Option ProjCleanRow :=
  g.foldl (fun acc r =>
    match acc with
    | none => some r
    | some m => if decide (m.year < r.year) then some r else acc) none

/-- `df.loc[group['Year'].idxmin()]`: the first row of the group attaining
the minimal `Year`. -/
def argminYear (g : List ProjCleanRow) : Option ProjCleanRow :=
  g.foldl (fun acc r =>
    match acc with
    | none => some r
    | some m => if decide (r.year < m.year) then some r else acc) none

/-- The historical rows of one country's group, tagged `Historical`. -/
def histRows (g : List ProjCleanRow) : List ProjOutRowQ :=
  g.map fun r => ⟨r.country, r.year, some r.population, r.growthRate, .historical⟩

/-- The future projections: for each target year strictly beyond the
latest historical year, the latest row with `Year` and `Population`
replaced (compound growth at the latest row's rate). -/
def futRows (rpow : ℚ → ℚ → ℚ) (latest : ProjCleanRow)
    (futureYears : List ℚ) : List ProjOutRowQ :=
  futureYears.filterMap fun ty =>
    if decide (latest.year < ty) then
      some ⟨latest.country, ty,
        some (latest.population * rpow (1 + latest.growthRate / 100) (ty - latest.year)),
        latest.growthRate, .projectedFuture⟩
    else none

/-- The backcasts: for each target year strictly before the earliest
historical year, the earliest row with `Year` and `Population` replaced,
discounting by the LATEST row's growth rate; NaN population when
`1 + rate/100` is zero, per the guard in the source. -/
def backRows (rpow : ℚ → ℚ → ℚ) (latest earliest : ProjCleanRow)
    (backcastYears : List ℚ) : List ProjOutRowQ :=
  backcastYears.filterMap fun ty =>
    if decide (ty < earliest.year) then
      some ⟨earliest.country, ty,
        (if 1 + latest.growthRate / 100 = 0 then none
          else some (earliest.population /
            rpow (1 + latest.growthRate / 100) (earliest.year - ty))),
        earliest.growthRate, .projectedPast⟩
    else none

/-- The rows the loop body appends for one country: its historical rows,
then the future projections, then the backcasts (both projections exist
only when the group is non-empty, i.e. `idxmax` / `idxmin` found a row). -/
def countryBlock (rpow : ℚ → ℚ → ℚ) (cleaned : List ProjCleanRow)
    (futureYears backcastYears : List ℚ) (c : String) : List ProjOutRowQ :=
  let g := cleaned.filter fun r => decide (r.country = c)
  match argmaxYear g, argminYear g with
  | some latest, some earliest =>
      histRows g ++ futRows rpow latest futureYears ++
        backRows rpow latest earliest backcastYears
  | _, _ => histRows g

/-- `astype(int)` applied to the `Year` column. -/
def intifyRow (r : ProjOutRowQ) : ProjOutRow :=
  ⟨r.country, qtrunc r.year, r.population, r.growthRate, r.type⟩

/-- The full `all_projected_data` list with `Year` cast to int. -/
def allProjectedRows (rpow : ℚ → ℚ → ℚ) (rows : List ProjInRow)
    (futureYears backcastYears : List ℚ) : List ProjOutRow :=
  ((uniqueFirst ((cleanRows rows).map ProjCleanRow.country)).flatMap
    (countryBlock rpow (cleanRows rows) futureYears backcastYears)).map intifyRow

/-- `drop_duplicates(subset=['Country/Territory', 'Year'], keep='first')`,
as a fold carrying the set of keys already seen. -/
def dedupByKeyAux (seen : List (String × ℤ)) : List ProjOutRow → List ProjOutRow
  | [] => []
  | r :: rest =>
      if decide (r.key ∈ seen) then dedupByKeyAux seen rest
      else r :: dedupByKeyAux (r.key :: seen) rest

/-- `drop_duplicates` keeping the first occurrence of each key. -/
def dedupByKey (l : List ProjOutRow) : List ProjOutRow := dedupByKeyAux [] l

/-- Comparison of `sort_values(by=['Country/Territory', 'Year'])`. -/
def leProjOut (a b : ProjOutRow) : Bool :=
  decide (a.country < b.country) ||
    (decide (a.country = b.country) && decide (a.year ≤ b.year))

/-- The columns `population_projection` requires of its input. -/
def requiredProjCols : List String :=
  ["Country/Territory", "Year", "Population", "Growth Rate"]

/-- `app/util/my_math.py::population_projection`. -/
def population_projection (rpow : ℚ → ℚ → ℚ) (df : ProjDF)
    (futureYears backcastYears : List ℚ) : List ProjOutRow :=
  if df.rows.isEmpty then []
  else if !(requiredProjCols.all fun cname => df.cols.contains cname) then []
  else if (allProjectedRows rpow df.rows futureYears backcastYears).isEmpty then []
  else (dedupByKey (allProjectedRows rpow df.rows futureYears backcastYears)).mergeSort
    leProjOut

end NomadCompass

namespace NomadCompass

theorem leProjOut_trans (a b c : ProjOutRow) :
    leProjOut a b = true → leProjOut b c = true → leProjOut a c = true := by
  simp only [leProjOut, Bool.or_eq_true, Bool.and_eq_true, decide_eq_true_eq]
  rintro (h1 | ⟨h1, h1'⟩) (h2 | ⟨h2, h2'⟩)
  · exact Or.inl (lt_trans h1 h2)
  · exact Or.inl (h2 ▸ h1)
  · exact Or.inl (h1 ▸ h2)
  · exact Or.inr ⟨h1.trans h2, le_trans h1' h2'⟩

theorem leProjOut_total (a b : ProjOutRow) :
    (leProjOut a b || leProjOut b a) = true := by
  simp only [leProjOut, Bool.or_eq_true, Bool.and_eq_true, decide_eq_true_eq]
  rcases lt_trichotomy a.country b.country with h | h | h
  · exact Or.inl (Or.inl h)
  · rcases le_total a.year b.year with ht | ht
    · exact Or.inl (Or.inr ⟨h, ht⟩)
    · exact Or.inr (Or.inr ⟨h.symm, ht⟩)
  · exact Or.inr (Or.inl h)

theorem dedupByKeyAux_nodup (l : List ProjOutRow) :
    ∀ seen : List (String × ℤ),
      ((dedupByKeyAux seen l).map ProjOutRow.key).Nodup ∧
      ∀ k ∈ (dedupByKeyAux seen l).map ProjOutRow.key, k ∉ seen := by
  induction l with
  | nil => intro seen; simp [dedupByKeyAux]
  | cons r rest ih =>
      intro seen
      by_cases hk : r.key ∈ seen
      · simpa [dedupByKeyAux, hk] using ih seen
      · obtain ⟨hnd, hout⟩ := ih (r.key :: seen)
        have hnotk : r.key ∉ (dedupByKeyAux (r.key :: seen) rest).map ProjOutRow.key :=
          fun hmem => (hout r.key hmem) (List.mem_cons_self _ _)
        constructor
        · simpa [dedupByKeyAux, hk] using List.nodup_cons.mpr ⟨hnotk, hnd⟩
        · intro k hkmem
          simp only [dedupByKeyAux, hk, if_false, decide_eq_true_eq, if_neg,
            List.map_cons, List.mem_cons] at hkmem
          rcases hkmem with hke | hkm
          · exact hke ▸ hk
          · exact fun hs => (hout k hkm) (List.mem_cons_of_mem _ hs)

theorem dedupByKeyAux_find? (l : List ProjOutRow) :
    ∀ (seen : List (String × ℤ)) (k : String × ℤ), k ∉ seen →
      (dedupByKeyAux seen l).find? (fun x => decide (x.key = k)) =
        l.find? (fun x => decide (x.key = k)) := by
  induction l with
  | nil => intro seen k _; rfl
  | cons r rest ih =>
      intro seen k hk
      by_cases hr : r.key ∈ seen
      · have hne : ¬r.key = k := fun h => hk (h ▸ hr)
        simp [dedupByKeyAux, hr, List.find?_cons, hne, ih seen k hk]
      · by_cases hek : r.key = k
        · simp [dedupByKeyAux, hr, List.find?_cons, hek, hk]
        · have hk2 : k ∉ r.key :: seen :=
            List.not_mem_cons_of_ne_of_not_mem (fun h => hek h.symm) hk
          simp [dedupByKeyAux, hr, List.find?_cons, hek, ih (r.key :: seen) k hk2]

theorem find?_eq_some_of_nodup_keys (l : List ProjOutRow) :
    (l.map ProjOutRow.key).Nodup → ∀ r ∈ l, ∀ k, r.key = k →
      l.find? (fun x => decide (x.key = k)) = some r := by
  induction l with
  | nil => intro _ r hr; exact absurd hr (List.not_mem_nil r)
  | cons x rest ih =>
      intro hnd r hr k hkey
      rw [List.map_cons] at hnd
      rcases List.nodup_cons.mp hnd with ⟨hxnot, hndrest⟩
      rcases List.mem_cons.mp hr with hrx | hrrest
      · subst hrx; simp [List.find?_cons, hkey]
      · have hne : ¬x.key = k := by
          intro hx
          have hxk : x.key ∈ rest.map ProjOutRow.key := by
            rw [hx, ← hkey]
            exact List.mem_map_of_mem _ hrrest
          exact hxnot hxk
        simpa [List.find?_cons, hne] using ih hndrest r hrrest k hkey

theorem uniqueFirstAux_nodup (l : List String) :
    ∀ seen : List String,
      (uniqueFirstAux seen l).Nodup ∧ ∀ x ∈ uniqueFirstAux seen l, x ∉ seen := by
  induction l with
  | nil => intro seen; simp [uniqueFirstAux]
  | cons c rest ih =>
      intro seen
      by_cases hk : c ∈ seen
      · simpa [uniqueFirstAux, hk] using ih seen
      · obtain ⟨hnd, hout⟩ := ih (c :: seen)
        have hnotc : c ∉ uniqueFirstAux (c :: seen) rest :=
          fun hmem => (hout c hmem) (List.mem_cons_self _ _)
        constructor
        · simpa [uniqueFirstAux, hk] using List.nodup_cons.mpr ⟨hnotc, hnd⟩
        · intro x hxmem
          rw [show uniqueFirstAux seen (c :: rest) =
              c :: uniqueFirstAux (c :: seen) rest by simp [uniqueFirstAux, hk]]
            at hxmem
          rcases List.mem_cons.mp hxmem with rfl | hxm
          · exact hk
          · exact fun hs => (hout x hxm) (List.mem_cons_of_mem _ hs)

theorem mem_uniqueFirstAux (l : List String) :
    ∀ (seen : List String) (x : String),
      x ∈ uniqueFirstAux seen l ↔ x ∈ l ∧ x ∉ seen := by
  induction l with
  | nil => intro seen x; simp [uniqueFirstAux]
  | cons c rest ih =>
      intro seen x
      by_cases hk : c ∈ seen
      · rw [show uniqueFirstAux seen (c :: rest) = uniqueFirstAux seen rest by
          simp [uniqueFirstAux, hk]]
        rw [ih seen x]
        constructor
        · rintro ⟨h1, h2⟩
          exact ⟨List.mem_cons_of_mem _ h1, h2⟩
        · rintro ⟨h1, h2⟩
          rcases List.mem_cons.mp h1 with rfl | h1
          · exact absurd hk h2
          · exact ⟨h1, h2⟩
      · rw [show uniqueFirstAux seen (c :: rest) = c :: uniqueFirstAux (c :: seen) rest by
          simp [uniqueFirstAux, hk]]
        by_cases hxc : x = c
        · subst hxc
          simp [hk]
        · constructor
          · intro hmem
            rcases List.mem_cons.mp hmem with rfl | hxm
            · exact absurd rfl hxc
            · obtain ⟨h1, h2⟩ := (ih (c :: seen) x).mp hxm
              exact ⟨List.mem_cons_of_mem _ h1,
                fun hs => h2 (List.mem_cons_of_mem _ hs)⟩
          · rintro ⟨h1, h2⟩
            rcases List.mem_cons.mp h1 with rfl | h1
            · exact absurd rfl hxc
            · exact List.mem_cons_of_mem _ ((ih (c :: seen) x).mpr
                ⟨h1, fun hs => (List.mem_cons.mp hs).elim hxc h2⟩)

theorem uniqueFirst_nodup (l : List String) : (uniqueFirst l).Nodup :=
  (uniqueFirstAux_nodup l []).1

theorem mem_uniqueFirst (l : List String) (x : String) :
    x ∈ uniqueFirst l ↔ x ∈ l := by
  rw [uniqueFirst, mem_uniqueFirstAux l [] x]
  simp

theorem foldl_pick_mem (step : Option ProjCleanRow → ProjCleanRow → Option ProjCleanRow)
    (hstep : ∀ acc r, step acc r = acc ∨ step acc r = some r) :
    ∀ (g : List ProjCleanRow) (acc : Option ProjCleanRow) (m : ProjCleanRow),
      g.foldl step acc = some m → acc = some m ∨ m ∈ g := by
  intro g
  induction g with
  | nil => intro acc m h; exact Or.inl h
  | cons r rest ih =>
      intro acc m h
      rcases ih (step acc r) m h with hacc | hmem
      · rcases hstep acc r with h1 | h1
        · exact Or.inl (by rw [← h1]; exact hacc)
        · have hrm : r = m := by
            rw [h1] at hacc
            exact Option.some.inj hacc
          subst hrm
          exact Or.inr (List.mem_cons_self _ _)
      · exact Or.inr (List.mem_cons_of_mem r hmem)

theorem argmaxYear_mem (g : List ProjCleanRow) (m : ProjCleanRow)
    (h : argmaxYear g = some m) : m ∈ g := by
  have := foldl_pick_mem _ (fun acc r => by
      cases acc with
      | none => exact Or.inr rfl
      | some a =>
          by_cases hlt : decide (a.year < r.year) = true
          · simp [hlt]
          · simp [hlt]) g none m h
  rcases this with hn | hm
  · exact absurd hn (by simp)
  · exact hm

theorem argminYear_mem (g : List ProjCleanRow) (m : ProjCleanRow)
    (h : argminYear g = some m) : m ∈ g := by
  have := foldl_pick_mem _ (fun acc r => by
      cases acc with
      | none => exact Or.inr rfl
      | some a =>
          by_cases hlt : decide (r.year < a.year) = true
          · simp [hlt]
          · simp [hlt]) g none m h
  rcases this with hn | hm
  · exact absurd hn (by simp)
  · exact hm

end NomadCompass

namespace NomadCompass

theorem intifyRow_country (y : ProjOutRowQ) : (intifyRow y).country = y.country := rfl

theorem intifyRow_type (y : ProjOutRowQ) : (intifyRow y).type = y.type := rfl

theorem ProjOutRow.country_of_key {r : ProjOutRow} {c : String} {y : ℤ}
    (h : r.key = (c, y)) : r.country = c := by
  have := congrArg Prod.fst h
  simpa [ProjOutRow.key] using this

theorem histRows_type (g : List ProjCleanRow) :
    ∀ x ∈ histRows g, x.type = RowType.historical := by
  intro x hx
  obtain ⟨r, _, rfl⟩ := List.mem_map.mp hx
  rfl

theorem histRows_country (g : List ProjCleanRow) (c : String)
    (hg : ∀ r ∈ g, r.country = c) :
    ∀ x ∈ histRows g, x.country = c := by
  intro x hx
  obtain ⟨r, hr, rfl⟩ := List.mem_map.mp hx
  exact hg r hr

theorem futRows_shape (rpow : ℚ → ℚ → ℚ) (latest : ProjCleanRow) (fy : List ℚ) :
    ∀ x ∈ futRows rpow latest fy,
      x.type = RowType.projectedFuture ∧ x.country = latest.country := by
  intro x hx
  obtain ⟨ty, _, heq⟩ := List.mem_filterMap.mp hx
  by_cases hlt : decide (latest.year < ty) = true
  · rw [if_pos hlt] at heq
    cases heq
    exact ⟨rfl, rfl⟩
  · rw [if_neg hlt] at heq
    cases heq

theorem backRows_shape (rpow : ℚ → ℚ → ℚ) (latest earliest : ProjCleanRow)
    (bys : List ℚ) :
    ∀ x ∈ backRows rpow latest earliest bys,
      x.type = RowType.projectedPast ∧ x.country = earliest.country := by
  intro x hx
  obtain ⟨ty, _, heq⟩ := List.mem_filterMap.mp hx
  by_cases hlt : decide (ty < earliest.year) = true
  · rw [if_pos hlt] at heq
    cases heq
    exact ⟨rfl, rfl⟩
  · rw [if_neg hlt] at heq
    cases heq

theorem countryBlock_eq_of_some (rpow : ℚ → ℚ → ℚ) (cleaned : List ProjCleanRow)
    (fy bys : List ℚ) (c : String) (latest earliest : ProjCleanRow)
    (hm : argmaxYear (cleaned.filter fun r => decide (r.country = c)) = some latest)
    (hn : argminYear (cleaned.filter fun r => decide (r.country = c)) = some earliest) :
    countryBlock rpow cleaned fy bys c =
      histRows (cleaned.filter fun r => decide (r.country = c)) ++
        futRows rpow latest fy ++ backRows rpow latest earliest bys := by
  simp only [countryBlock]
  rw [hm, hn]

theorem countryBlock_eq_of_max_none (rpow : ℚ → ℚ → ℚ) (cleaned : List ProjCleanRow)
    (fy bys : List ℚ) (c : String)
    (hm : argmaxYear (cleaned.filter fun r => decide (r.country = c)) = none) :
    countryBlock rpow cleaned fy bys c =
      histRows (cleaned.filter fun r => decide (r.country = c)) := by
  simp only [countryBlock]
  rw [hm]

theorem countryBlock_eq_of_min_none (rpow : ℚ → ℚ → ℚ) (cleaned : List ProjCleanRow)
    (fy bys : List ℚ) (c : String)
    (hn : argminYear (cleaned.filter fun r => decide (r.country = c)) = none) :
    countryBlock rpow cleaned fy bys c =
      histRows (cleaned.filter fun r => decide (r.country = c)) := by
  simp only [countryBlock]
  rw [hn]
  cases argmaxYear (cleaned.filter fun r => decide (r.country = c)) <;> rfl

theorem countryBlock_country (rpow : ℚ → ℚ → ℚ) (cleaned : List ProjCleanRow)
    (fy bys : List ℚ) (c : String) :
    ∀ x ∈ countryBlock rpow cleaned fy bys c, x.country = c := by
  have hgc : ∀ r ∈ cleaned.filter fun r => decide (r.country = c), r.country = c := by
    intro r hr
    simpa using (List.mem_filter.mp hr).2
  intro x hx
  cases hm : argmaxYear (cleaned.filter fun r => decide (r.country = c)) with
  | none =>
      rw [countryBlock_eq_of_max_none rpow cleaned fy bys c hm] at hx
      exact histRows_country _ c hgc x hx
  | some latest =>
      cases hn : argminYear (cleaned.filter fun r => decide (r.country = c)) with
      | none =>
          rw [countryBlock_eq_of_min_none rpow cleaned fy bys c hn] at hx
          exact histRows_country _ c hgc x hx
      | some earliest =>
          rw [countryBlock_eq_of_some rpow cleaned fy bys c latest earliest hm hn] at hx
          rcases List.mem_append.mp hx with hx1 | hback
          · rcases List.mem_append.mp hx1 with hhist | hfut
            · exact histRows_country _ c hgc x hhist
            · rw [(futRows_shape rpow latest fy x hfut).2]
              exact hgc latest (argmaxYear_mem _ latest hm)
          · rw [(backRows_shape rpow latest earliest bys x hback).2]
            exact hgc earliest (argminYear_mem _ earliest hn)

end NomadCompass

namespace NomadCompass

theorem find?_historical_of_all (k : String × ℤ) (l : List ProjOutRow)
    (hall : ∀ x ∈ l, x.type = RowType.historical)
    (hsome : ∃ x ∈ l, decide (x.key = k) = true) :
    ∃ h, l.find? (fun x => decide (x.key = k)) = some h ∧
      h.type = RowType.historical := by
  have hs : (l.find? fun x => decide (x.key = k)).isSome = true :=
    List.find?_isSome.mpr hsome
  cases hf : l.find? fun x => decide (x.key = k) with
  | none => rw [hf] at hs; cases hs
  | some h => exact ⟨h, rfl, hall h (List.mem_of_find?_eq_some hf)⟩

theorem countryBlock_find_historical (rpow : ℚ → ℚ → ℚ) (cleaned : List ProjCleanRow)
    (fy bys : List ℚ) (c : String) (k : String × ℤ)
    (hex : ∃ x ∈ (countryBlock rpow cleaned fy bys c).map intifyRow,
      x.key = k ∧ x.type = RowType.historical) :
    ∃ h, ((countryBlock rpow cleaned fy bys c).map intifyRow).find?
        (fun x => decide (x.key = k)) = some h ∧
      h.type = RowType.historical := by
  obtain ⟨x, hxmem, hxkey, hxtype⟩ := hex
  have hhistI : ∀ z ∈ (histRows (cleaned.filter fun r => decide (r.country = c))).map
      intifyRow, z.type = RowType.historical := by
    intro z hz
    obtain ⟨y, hy, rfl⟩ := List.mem_map.mp hz
    rw [intifyRow_type]
    exact histRows_type _ y hy
  cases hm : argmaxYear (cleaned.filter fun r => decide (r.country = c)) with
  | none =>
      rw [countryBlock_eq_of_max_none rpow cleaned fy bys c hm] at hxmem ⊢
      exact find?_historical_of_all k _ hhistI ⟨x, hxmem, by simp [hxkey]⟩
  | some latest =>
      cases hn : argminYear (cleaned.filter fun r => decide (r.country = c)) with
      | none =>
          rw [countryBlock_eq_of_min_none rpow cleaned fy bys c hn] at hxmem ⊢
          exact find?_historical_of_all k _ hhistI ⟨x, hxmem, by simp [hxkey]⟩
      | some earliest =>
          rw [countryBlock_eq_of_some rpow cleaned fy bys c latest earliest hm hn]
            at hxmem ⊢
          rw [List.map_append, List.map_append] at hxmem ⊢
          have hxhist : x ∈ (histRows (cleaned.filter fun r =>
              decide (r.country = c))).map intifyRow := by
            rcases List.mem_append.mp hxmem with hx1 | hback
            · rcases List.mem_append.mp hx1 with hhist | hfut
              · exact hhist
              · exfalso
                obtain ⟨y, hy, rfl⟩ := List.mem_map.mp hfut
                rw [intifyRow_type, (futRows_shape rpow latest fy y hy).1] at hxtype
                cases hxtype
            · exfalso
              obtain ⟨y, hy, rfl⟩ := List.mem_map.mp hback
              rw [intifyRow_type,
                (backRows_shape rpow latest earliest bys y hy).1] at hxtype
              cases hxtype
          obtain ⟨h, hfind, htype⟩ :=
            find?_historical_of_all k _ hhistI ⟨x, hxhist, by simp [hxkey]⟩
          refine ⟨h, ?_, htype⟩
          rw [List.find?_append, List.find?_append, hfind]
          rfl

theorem find?_flatMap_country (f : String → List ProjOutRow)
    (hf : ∀ c x, x ∈ f c → x.country = c) :
    ∀ (countries : List String), countries.Nodup → ∀ c ∈ countries, ∀ y : ℤ,
      (countries.flatMap f).find? (fun x => decide (x.key = (c, y))) =
        (f c).find? (fun x => decide (x.key = (c, y))) := by
  intro countries
  induction countries with
  | nil => intro _ c hc; exact absurd hc (List.not_mem_nil c)
  | cons c0 rest ih =>
      intro hnd c hc y
      rcases List.nodup_cons.mp hnd with ⟨h0, hndr⟩
      rw [List.flatMap_cons, List.find?_append]
      by_cases hceq : c0 = c
      · subst hceq
        cases hfind : (f c0).find? fun x => decide (x.key = (c0, y)) with
        | some h => simp [hfind]
        | none =>
            rw [Option.none_or]
            have : (rest.flatMap f).find? (fun x => decide (x.key = (c0, y))) = none := by
              apply List.find?_eq_none.mpr
              intro x hx
              obtain ⟨c1, hc1, hxc1⟩ := List.mem_flatMap.mp hx
              simp only [decide_eq_true_eq]
              intro hpk
              have hx0 : x.country = c0 := ProjOutRow.country_of_key hpk
              have hx1 : x.country = c1 := hf c1 x hxc1
              exact h0 (by rw [← hx0, hx1]; exact hc1)
            rw [this]
      · have hnone : (f c0).find? (fun x => decide (x.key = (c, y))) = none := by
          apply List.find?_eq_none.mpr
          intro x hx
          simp only [decide_eq_true_eq]
          intro hpk
          exact hceq (by rw [← (hf c0 x hx), ProjOutRow.country_of_key hpk])
        rw [hnone, Option.none_or]
        have hcrest : c ∈ rest := by
          rcases List.mem_cons.mp hc with h | h
          · exact absurd h.symm hceq
          · exact h
        exact ih hndr c hcrest y

end NomadCompass

namespace NomadCompass

/-- C10: whatever the input frame, future/backcast year lists and float
power realisation, the frame returned by `population_projection` has at
most one row per `(Country/Territory, Year)` key, is sorted by country
and then by ascending integer year, and — because duplicates are dropped
keeping the first occurrence and each country's historical rows are
appended before its projected rows — whenever some pre-deduplication row
with a given key is historical, the surviving row with that key is
historical, never a projected one. -/
theorem population_projection_unique_sorted (rpow : ℚ → ℚ → ℚ) (df : ProjDF)
    (futureYears backcastYears : List ℚ) :
    ((population_projection rpow df futureYears backcastYears).map
      ProjOutRow.key).Nodup ∧
    ((population_projection rpow df futureYears backcastYears).Pairwise fun a b =>
      a.country < b.country ∨ (a.country = b.country ∧ a.year ≤ b.year)) ∧
    (∀ (c : String) (y : ℤ),
      (∃ x ∈ allProjectedRows rpow df.rows futureYears backcastYears,
        x.key = (c, y) ∧ x.type = RowType.historical) →
      ∀ r ∈ population_projection rpow df futureYears backcastYears,
        r.key = (c, y) → r.type = RowType.historical) := by
  by_cases h1 : df.rows.isEmpty = true
  · have hout : population_projection rpow df futureYears backcastYears = [] := by
      unfold population_projection
      rw [if_pos h1]
    rw [hout]
    simp
  · by_cases h2 : (requiredProjCols.all fun cname => df.cols.contains cname) = true
    · have hnotb : ¬((!(requiredProjCols.all fun cname =>
          df.cols.contains cname)) = true) := by rw [h2]; simp
      by_cases h3 : (allProjectedRows rpow df.rows futureYears
          backcastYears).isEmpty = true
      · have hout : population_projection rpow df futureYears backcastYears = [] := by
          unfold population_projection
          rw [if_neg h1, if_neg hnotb, if_pos h3]
        rw [hout]
        simp
      · have hout : population_projection rpow df futureYears backcastYears =
            (dedupByKey (allProjectedRows rpow df.rows futureYears
              backcastYears)).mergeSort leProjOut := by
          unfold population_projection
          rw [if_neg h1, if_neg hnotb, if_neg h3]
        have hperm := List.mergeSort_perm
          (dedupByKey (allProjectedRows rpow df.rows futureYears backcastYears)) leProjOut
        have hnd : ((dedupByKey (allProjectedRows rpow df.rows futureYears
            backcastYears)).map ProjOutRow.key).Nodup :=
          (dedupByKeyAux_nodup (allProjectedRows rpow df.rows futureYears backcastYears)
            []).1
        refine ⟨?_, ?_, ?_⟩
        · rw [hout]
          exact ((hperm.map ProjOutRow.key).nodup_iff).mpr hnd
        · rw [hout]
          have hs := List.sorted_mergeSort leProjOut_trans leProjOut_total
            (dedupByKey (allProjectedRows rpow df.rows futureYears backcastYears))
          exact hs.imp fun hle => by
            simpa [leProjOut, Bool.or_eq_true, Bool.and_eq_true,
              decide_eq_true_eq] using hle
        · intro c y hex r hr hkey
          rw [hout] at hr
          have hrd : r ∈ dedupByKey (allProjectedRows rpow df.rows futureYears
              backcastYears) := (hperm.mem_iff).mp hr
          have hfind1 := find?_eq_some_of_nodup_keys _ hnd r hrd (c, y) hkey
          have hfind2 : (allProjectedRows rpow df.rows futureYears
              backcastYears).find? (fun x => decide (x.key = (c, y))) = some r := by
            rw [← dedupByKeyAux_find? (allProjectedRows rpow df.rows futureYears
              backcastYears) [] (c, y) (List.not_mem_nil _)]
            exact hfind1
          have hform : allProjectedRows rpow df.rows futureYears backcastYears =
              (uniqueFirst ((cleanRows df.rows).map ProjCleanRow.country)).flatMap
                fun a => (countryBlock rpow (cleanRows df.rows) futureYears
                  backcastYears a).map intifyRow := by
            simp [allProjectedRows, List.map_flatMap]
          have hf : ∀ (a : String) (x : ProjOutRow),
              x ∈ (countryBlock rpow (cleanRows df.rows) futureYears
                backcastYears a).map intifyRow → x.country = a := by
            intro a x hx
            obtain ⟨yq, hy, rfl⟩ := List.mem_map.mp hx
            rw [intifyRow_country]
            exact countryBlock_country rpow _ _ _ a yq hy
          obtain ⟨x, hxmem, hxkey, hxtype⟩ := hex
          rw [hform] at hxmem hfind2
          obtain ⟨c1, hc1, hxc1⟩ := List.mem_flatMap.mp hxmem
          have hc1c : c1 = c := by
            rw [← hf c1 x hxc1]
            exact ProjOutRow.country_of_key hxkey
          subst hc1c
          have hfc := find?_flatMap_country
            (fun a => (countryBlock rpow (cleanRows df.rows) futureYears
              backcastYears a).map intifyRow) hf
            (uniqueFirst ((cleanRows df.rows).map ProjCleanRow.country))
            (uniqueFirst_nodup _) c1 hc1 y
          rw [hfc] at hfind2
          obtain ⟨h, hfind3, htype⟩ := countryBlock_find_historical rpow
            (cleanRows df.rows) futureYears backcastYears c1 (c1, y)
            ⟨x, hxc1, hxkey, hxtype⟩
          have hrh : r = h := Option.some.inj (hfind2.symm.trans hfind3)
          rw [hrh]
          exact htype
    · have hcond : (!(requiredProjCols.all fun cname => df.cols.contains cname)) = true := by
        cases hb : requiredProjCols.all fun cname => df.cols.contains cname
        · rfl
        · exact absurd hb h2
      have hout : population_projection rpow df futureYears backcastYears = [] := by
        unfold population_projection
        rw [if_neg h1, if_pos hcond]
      rw [hout]
      simp

end NomadCompass

namespace NomadCompass

/-- C10 witness: one country with a single historical row (year 2000) and
one future projection (2001); the output contains the historical row, and
the theorem instance concludes that the surviving row under its key is the
historical one. -/
theorem population_projection_unique_sorted_witness :
    (∃ x ∈ allProjectedRows (fun _ _ => 1)
        [⟨"A", some 2000, some 10, some 5⟩] [2001] [],
      x.key = ("A", 2000) ∧ x.type = RowType.historical) ∧
    ((⟨"A", 2000, some 10, 5, RowType.historical⟩ : ProjOutRow) ∈
      population_projection (fun _ _ => 1)
        ⟨requiredProjCols, [⟨"A", some 2000, some 10, some 5⟩]⟩ [2001] []) ∧
    (⟨"A", 2000, some 10, 5, RowType.historical⟩ : ProjOutRow).type =
      RowType.historical := by
  have hmem : (⟨"A", 2000, some 10, 5, RowType.historical⟩ : ProjOutRow) ∈
      population_projection (fun _ _ => 1)
        ⟨requiredProjCols, [⟨"A", some 2000, some 10, some 5⟩]⟩ [2001] [] := by
    have hout : population_projection (fun _ _ => 1)
        ⟨requiredProjCols, [⟨"A", some 2000, some 10, some 5⟩]⟩ [2001] [] =
        (dedupByKey (allProjectedRows (fun _ _ => 1)
          [⟨"A", some 2000, some 10, some 5⟩] [2001] [])).mergeSort leProjOut := by
      unfold population_projection
      rw [if_neg (by decide), if_neg (by decide), if_neg (by decide)]
    rw [hout]
    exact (List.mergeSort_perm _ leProjOut).mem_iff.mpr (by decide)
  exact ⟨by decide, hmem,
    (population_projection_unique_sorted (fun _ _ => 1)
        ⟨requiredProjCols, [⟨"A", some 2000, some 10, some 5⟩]⟩ [2001] []).2.2
      "A" 2000 (by decide)
      ⟨"A", 2000, some 10, 5, RowType.historical⟩ hmem (by decide)⟩

end NomadCompass

namespace NomadCompass

/-! ## Generic groupby-key machinery (used by the clustering feature
engineering, claim C2)

pandas `groupby(keys).agg(...)` produces one aggregate row per distinct
key; `unstack` turns the second key level into columns, leaving NaN cells
for absent keys; `pd.merge(..., how='outer')` on the country key unions
the row indices. These are embedded as: the distinct-key list of a frame,
aggregate long tables mapping each key to its aggregates, and `find?`
lookups for the unstacked/merged cells. -/

/-- The distinct keys of a list under a key function, in first-appearance
order (the order is irrelevant to the claims; pandas sorts group keys). -/
def groupKeysAux {α κ : Type} [DecidableEq κ] (key : α → κ) (seen : List κ) :
    List α → List κ
  | [] => []
  | r :: rest =>
      if decide (key r ∈ seen) then groupKeysAux key seen rest
      else key r :: groupKeysAux key (key r :: seen) rest

/-- The distinct keys of a list under a key function. -/
def groupKeys {α κ : Type} [DecidableEq κ] (key : α → κ) (l : List α) : List κ :=
  groupKeysAux key [] l

theorem groupKeysAux_nodup {α κ : Type} [DecidableEq κ] (key : α → κ) (l : List α) :
    ∀ seen : List κ,
      (groupKeysAux key seen l).Nodup ∧ ∀ k ∈ groupKeysAux key seen l, k ∉ seen := by
  induction l with
  | nil => intro seen; simp [groupKeysAux]
  | cons r rest ih =>
      intro seen
      by_cases hk : key r ∈ seen
      · simpa [groupKeysAux, hk] using ih seen
      · obtain ⟨hnd, hout⟩ := ih (key r :: seen)
        have hnotc : key r ∉ groupKeysAux key (key r :: seen) rest :=
          fun hmem => (hout (key r) hmem) (List.mem_cons_self _ _)
        constructor
        · simpa [groupKeysAux, hk] using List.nodup_cons.mpr ⟨hnotc, hnd⟩
        · intro x hxmem
          rw [show groupKeysAux key seen (r :: rest) =
              key r :: groupKeysAux key (key r :: seen) rest by
            simp [groupKeysAux, hk]] at hxmem
          rcases List.mem_cons.mp hxmem with rfl | hxm
          · exact hk
          · exact fun hs => (hout x hxm) (List.mem_cons_of_mem _ hs)

theorem mem_groupKeysAux {α κ : Type} [DecidableEq κ] (key : α → κ) (l : List α) :
    ∀ (seen : List κ) (k : κ),
      k ∈ groupKeysAux key seen l ↔ k ∈ l.map key ∧ k ∉ seen := by
  induction l with
  | nil => intro seen k; simp [groupKeysAux]
  | cons r rest ih =>
      intro seen k
      by_cases hk : key r ∈ seen
      · rw [show groupKeysAux key seen (r :: rest) = groupKeysAux key seen rest by
          simp [groupKeysAux, hk]]
        rw [ih seen k, List.map_cons]
        constructor
        · rintro ⟨h1, h2⟩
          exact ⟨List.mem_cons_of_mem _ h1, h2⟩
        · rintro ⟨h1, h2⟩
          rcases List.mem_cons.mp h1 with rfl | h1
          · exact absurd hk h2
          · exact ⟨h1, h2⟩
      · rw [show groupKeysAux key seen (r :: rest) =
            key r :: groupKeysAux key (key r :: seen) rest by
          simp [groupKeysAux, hk]]
        rw [List.map_cons]
        by_cases hxc : k = key r
        · subst hxc
          simp [hk]
        · constructor
          · intro hmem
            rcases List.mem_cons.mp hmem with rfl | hxm
            · exact absurd rfl hxc
            · obtain ⟨h1, h2⟩ := (ih (key r :: seen) k).mp hxm
              exact ⟨List.mem_cons_of_mem _ h1,
                fun hs => h2 (List.mem_cons_of_mem _ hs)⟩
          · rintro ⟨h1, h2⟩
            rcases List.mem_cons.mp h1 with rfl | h1
            · exact absurd rfl hxc
            · exact List.mem_cons_of_mem _ ((ih (key r :: seen) k).mpr
                ⟨h1, fun hs => (List.mem_cons.mp hs).elim hxc h2⟩)

theorem groupKeys_nodup {α κ : Type} [DecidableEq κ] (key : α → κ) (l : List α) :
    (groupKeys key l).Nodup :=
  (groupKeysAux_nodup key l []).1

theorem mem_groupKeys {α κ : Type} [DecidableEq κ] (key : α → κ) (l : List α)
    (k : κ) : k ∈ groupKeys key l ↔ k ∈ l.map key := by
  rw [groupKeys, mem_groupKeysAux key l [] k]
  simp

theorem find?_attains {α κ : Type} [DecidableEq κ] (key : α → κ) (l : List α)
    (hnd : (l.map key).Nodup) (r : α) (hr : r ∈ l) (k : κ) (hk : key r = k) :
    l.find? (fun x => decide (key x = k)) = some r := by
  induction l with
  | nil => exact absurd hr (List.not_mem_nil r)
  | cons x rest ih =>
      rw [List.map_cons] at hnd
      rcases List.nodup_cons.mp hnd with ⟨hxnot, hndrest⟩
      rcases List.mem_cons.mp hr with hrx | hrrest
      · subst hrx
        simp [List.find?_cons, hk]
      · have hne : ¬key x = k := by
          intro hx
          have : key x ∈ rest.map key := by
            rw [hx, ← hk]
            exact List.mem_map_of_mem _ hrrest
          exact hxnot this
        simpa [List.find?_cons, hne] using ih hndrest hrrest

/-- pandas outer-merge key union: the left keys, then the unseen right
keys. -/
def outerUnion (xs ys : List String) : List String :=
  xs ++ ys.filter fun y => decide (y ∉ xs)

theorem outerUnion_nodup (xs ys : List String) (hx : xs.Nodup) (hy : ys.Nodup) :
    (outerUnion xs ys).Nodup := by
  rw [outerUnion, List.nodup_append]
  refine ⟨hx, hy.filter _, ?_⟩
  intro a hax hafy
  have := (List.mem_filter.mp hafy).2
  simp only [decide_eq_true_eq] at this
  exact this hax

theorem mem_outerUnion (xs ys : List String) (a : String) :
    a ∈ outerUnion xs ys ↔ a ∈ xs ∨ a ∈ ys := by
  rw [outerUnion, List.mem_append, List.mem_filter]
  by_cases hax : a ∈ xs
  · simp [hax]
  · simp [hax]

end NomadCompass

namespace NomadCompass

/-! ## Clustering-page feature engineering (claim C2)

`clustering_page` step 2 engineers one profile per country:
- granular CPI (rows `COUNTRY_NAME`, `Category`, `TIME_PERIOD`,
  `OBS_VALUE`, i.e. `CpiObsRow`), sorted by
  `['COUNTRY_NAME', 'Category', 'Time']`, `YoY_pct` computed per
  `(COUNTRY_NAME, Category)` group, then
  `groupby(['COUNTRY_NAME', 'Category']).agg(Avg_CPI=mean OBS_VALUE,
  Std_CPI=std OBS_VALUE, Avg_YoY_CPI=mean YoY_pct)` and `unstack`;
- NHA indicators: `groupby(['COUNTRY_NAME', 'Indicators'])
  .agg(Avg_NHA_PPP=mean Value_PPP)` and `unstack`;
- population: `groupby('COUNTRY_NAME').agg(Avg_Population=mean Population,
  Avg_Density=mean Density)`;
- two successive `pd.merge(..., on='COUNTRY_NAME', how='outer')`.

The unstacked/merged cells are modelled as `find?` lookups into the long
aggregate tables; the merged row index is the outer union of the three
country lists. -/

/-- An NHA indicators row after initial preprocessing. -/
structure NhaRow where
  country : String
  indicator : String
  valuePPP : ℚ
deriving DecidableEq

/-- A population row after initial preprocessing. -/
structure PopFeatRow where
  country : String
  population : ℚ
  density : ℚ
deriving DecidableEq

/-- The three engineered CPI aggregates of one `(country, category)`
group. -/
structure CpiAggCell where
  avgCPI : ℚ
  stdCPI : Option ℚ
  avgYoY : Option ℚ
deriving DecidableEq

/-- One row of the long `cpi_agg_features` table. -/
structure CpiAggRow where
  country : String
  category : String
  cell : CpiAggCell
deriving DecidableEq

/-- One row of the long `nha_agg_features` table. -/
structure NhaAggRow where
  country : String
  indicator : String
  avgPPP : ℚ
deriving DecidableEq

/-- One row of the `population_features` table. -/
structure PopAggRow where
  country : String
  avgPopulation : ℚ
  avgDensity : ℚ
deriving DecidableEq

/-- The `OBS_VALUE` column of one `(country, category)` group, cut from
the frame sorted by `['COUNTRY_NAME', 'Category', 'Time']`. -/
def cpiGroupVals (rows : List CpiObsRow) (c g : String) : List ℚ :=
  (countryCategoryGroup (sortByCountryCategoryTime rows) c g).map CpiObsRow.obs

/-- The aggregates of one CPI group: mean of `OBS_VALUE`, `pandas.std` of
`OBS_VALUE`, mean of the group's `YoY_pct` column. -/
def cpiAggCell (sq : ℚ → ℚ) (rows : List CpiObsRow) (c g : String) : CpiAggCell :=
  { avgCPI := listMean (cpiGroupVals rows c g)
    stdCPI := sampleStd sq (cpiGroupVals rows c g)
    avgYoY := listMeanOpt (yoyColumn (cpiGroupVals rows c g)) }

/-- The long `cpi_agg_features` table: one row per distinct
`(COUNTRY_NAME, Category)` key. -/
def cpi_agg_features (sq : ℚ → ℚ) (rows : List CpiObsRow) : List CpiAggRow :=
  (groupKeys (fun r => (r.country, r.category)) rows).map fun k =>
    ⟨k.1, k.2, cpiAggCell sq rows k.1 k.2⟩

/-- The unstacked CPI cell of country `c` and category `g`: the aggregate
triple when the key exists, NaN (`none`) otherwise. -/
def cpiWideCell (sq : ℚ → ℚ) (rows : List CpiObsRow) (c g : String) :
    Option CpiAggCell :=
  ((cpi_agg_features sq rows).find? fun e =>
    decide ((e.country, e.category) = (c, g))).map CpiAggRow.cell

/-- The `Value_PPP` column of one `(country, indicator)` group. -/
def nhaGroupVals (nha : List NhaRow) (c i : String) : List ℚ :=
  (nha.filter fun r => decide (r.country = c) && decide (r.indicator = i)).map
    NhaRow.valuePPP

/-- The long `nha_agg_features` table: one row per distinct
`(COUNTRY_NAME, Indicators)` key, carrying the mean `Value_PPP`. -/
def nha_agg_features (nha : List NhaRow) : List NhaAggRow :=
  (groupKeys (fun r => (r.country, r.indicator)) nha).map fun k =>
    ⟨k.1, k.2, listMean (nhaGroupVals nha k.1 k.2)⟩

/-- The unstacked NHA cell of country `c` and indicator `i`. -/
def nhaWideCell (nha : List NhaRow) (c i : String) : Option ℚ :=
  ((nha_agg_features nha).find? fun e =>
    decide ((e.country, e.indicator) = (c, i))).map NhaAggRow.avgPPP

/-- One country's population rows. -/
def popGroup (pop : List PopFeatRow) (c : String) : List PopFeatRow :=
  pop.filter fun r => decide (r.country = c)

/-- The `population_features` table: one row per country, carrying mean
population and mean density. -/
def population_features (pop : List PopFeatRow) : List PopAggRow :=
  (groupKeys PopFeatRow.country pop).map fun c =>
    ⟨c, listMean ((popGroup pop c).map PopFeatRow.population),
      listMean ((popGroup pop c).map PopFeatRow.density)⟩

/-- The population cell of country `c` in the merged table. -/
def popWideCell (pop : List PopFeatRow) (c : String) : Option (ℚ × ℚ) :=
  ((population_features pop).find? fun e => decide (e.country = c)).map
    fun e => (e.avgPopulation, e.avgDensity)

/-- The row index of `combined_features`: the outer union of the three
tables' country keys. -/
def combined_features_countries (cpiR : List CpiObsRow) (nhaR : List NhaRow)
    (popR : List PopFeatRow) : List String :=
  outerUnion
    (outerUnion (groupKeys CpiObsRow.country cpiR) (groupKeys NhaRow.country nhaR))
    (groupKeys PopFeatRow.country popR)

end NomadCompass

namespace NomadCompass

theorem cpiWideCell_eq (sq : ℚ → ℚ) (rows : List CpiObsRow) (c g : String) :
    cpiWideCell sq rows c g =
      if (c, g) ∈ rows.map (fun r => (r.country, r.category)) then
        some (cpiAggCell sq rows c g)
      else none := by
  by_cases hmem : (c, g) ∈ rows.map fun r => (r.country, r.category)
  · rw [if_pos hmem]
    have hk : (c, g) ∈ groupKeys (fun r => (r.country, r.category)) rows :=
      (mem_groupKeys _ _ _).mpr hmem
    have hkeysmap : (cpi_agg_features sq rows).map (fun e => (e.country, e.category)) =
        groupKeys (fun r => (r.country, r.category)) rows := by
      unfold cpi_agg_features
      rw [List.map_map]
      exact List.map_id _
    have hnd : ((cpi_agg_features sq rows).map fun e => (e.country, e.category)).Nodup := by
      rw [hkeysmap]
      exact groupKeys_nodup _ _
    have hr : (⟨c, g, cpiAggCell sq rows c g⟩ : CpiAggRow) ∈ cpi_agg_features sq rows :=
      List.mem_map_of_mem _ hk
    have hfind := find?_attains (fun e : CpiAggRow => (e.country, e.category))
      (cpi_agg_features sq rows) hnd ⟨c, g, cpiAggCell sq rows c g⟩ hr (c, g) rfl
    unfold cpiWideCell
    rw [hfind]
    rfl
  · rw [if_neg hmem]
    have hnone : (cpi_agg_features sq rows).find?
        (fun e => decide ((e.country, e.category) = (c, g))) = none := by
      apply List.find?_eq_none.mpr
      intro x hx
      simp only [decide_eq_true_eq]
      intro hpk
      unfold cpi_agg_features at hx
      obtain ⟨k, hkmem, hfk⟩ := List.mem_map.mp hx
      subst hfk
      have hk2 : k = (c, g) := by
        obtain ⟨k1, k2⟩ := k
        simpa using hpk
      rw [hk2] at hkmem
      exact hmem ((mem_groupKeys _ _ _).mp hkmem)
    unfold cpiWideCell
    rw [hnone]
    rfl

theorem nhaWideCell_eq (nha : List NhaRow) (c i : String) :
    nhaWideCell nha c i =
      if (c, i) ∈ nha.map (fun r => (r.country, r.indicator)) then
        some (listMean (nhaGroupVals nha c i))
      else none := by
  by_cases hmem : (c, i) ∈ nha.map fun r => (r.country, r.indicator)
  · rw [if_pos hmem]
    have hk : (c, i) ∈ groupKeys (fun r => (r.country, r.indicator)) nha :=
      (mem_groupKeys _ _ _).mpr hmem
    have hkeysmap : (nha_agg_features nha).map (fun e => (e.country, e.indicator)) =
        groupKeys (fun r => (r.country, r.indicator)) nha := by
      unfold nha_agg_features
      rw [List.map_map]
      exact List.map_id _
    have hnd : ((nha_agg_features nha).map fun e => (e.country, e.indicator)).Nodup := by
      rw [hkeysmap]
      exact groupKeys_nodup _ _
    have hr : (⟨c, i, listMean (nhaGroupVals nha c i)⟩ : NhaAggRow) ∈
        nha_agg_features nha :=
      List.mem_map_of_mem _ hk
    have hfind := find?_attains (fun e : NhaAggRow => (e.country, e.indicator))
      (nha_agg_features nha) hnd ⟨c, i, listMean (nhaGroupVals nha c i)⟩ hr (c, i) rfl
    unfold nhaWideCell
    rw [hfind]
    rfl
  · rw [if_neg hmem]
    have hnone : (nha_agg_features nha).find?
        (fun e => decide ((e.country, e.indicator) = (c, i))) = none := by
      apply List.find?_eq_none.mpr
      intro x hx
      simp only [decide_eq_true_eq]
      intro hpk
      unfold nha_agg_features at hx
      obtain ⟨k, hkmem, hfk⟩ := List.mem_map.mp hx
      subst hfk
      have hk2 : k = (c, i) := by
        obtain ⟨k1, k2⟩ := k
        simpa using hpk
      rw [hk2] at hkmem
      exact hmem ((mem_groupKeys _ _ _).mp hkmem)
    unfold nhaWideCell
    rw [hnone]
    rfl

theorem popWideCell_eq (pop : List PopFeatRow) (c : String) :
    popWideCell pop c =
      if c ∈ pop.map PopFeatRow.country then
        some (listMean ((popGroup pop c).map PopFeatRow.population),
          listMean ((popGroup pop c).map PopFeatRow.density))
      else none := by
  by_cases hmem : c ∈ pop.map PopFeatRow.country
  · rw [if_pos hmem]
    have hk : c ∈ groupKeys PopFeatRow.country pop :=
      (mem_groupKeys _ _ _).mpr hmem
    have hkeysmap : (population_features pop).map PopAggRow.country =
        groupKeys PopFeatRow.country pop := by
      unfold population_features
      rw [List.map_map]
      exact List.map_id _
    have hnd : ((population_features pop).map PopAggRow.country).Nodup := by
      rw [hkeysmap]
      exact groupKeys_nodup _ _
    have hr : (⟨c, listMean ((popGroup pop c).map PopFeatRow.population),
        listMean ((popGroup pop c).map PopFeatRow.density)⟩ : PopAggRow) ∈
        population_features pop :=
      List.mem_map_of_mem _ hk
    have hfind := find?_attains PopAggRow.country (population_features pop) hnd
      ⟨c, listMean ((popGroup pop c).map PopFeatRow.population),
        listMean ((popGroup pop c).map PopFeatRow.density)⟩ hr c rfl
    unfold popWideCell
    have hfind2 : (population_features pop).find? (fun e => decide (e.country = c)) =
        some ⟨c, listMean ((popGroup pop c).map PopFeatRow.population),
          listMean ((popGroup pop c).map PopFeatRow.density)⟩ := hfind
    rw [hfind2]
    rfl
  · rw [if_neg hmem]
    have hnone : (population_features pop).find?
        (fun e => decide (e.country = c)) = none := by
      apply List.find?_eq_none.mpr
      intro x hx
      simp only [decide_eq_true_eq]
      intro hpk
      unfold population_features at hx
      obtain ⟨k, hkmem, hfk⟩ := List.mem_map.mp hx
      subst hfk
      rw [show k = c from hpk] at hkmem
      exact hmem ((mem_groupKeys _ _ _).mp hkmem)
    unfold popWideCell
    rw [hnone]
    rfl

/-- C2: the merged feature matrix has exactly one row per country — its
row index is Nodup and holds precisely the countries occurring in any of
the three sources, merged on the country-name key — and each cell is
exactly the claimed engineered aggregate: for every CPI category present
for a country, the mean and `pandas.std` of the `OBS_VALUE` series and
the mean of its year-over-year percent-change column; for every NHA
indicator present, the mean `Value_PPP`; and for every country with
population data, the mean population and mean density; NaN (`none`)
cells where the key is absent. -/
theorem clustering_feature_matrix (sq : ℚ → ℚ) (cpiR : List CpiObsRow)
    (nhaR : List NhaRow) (popR : List PopFeatRow) (c g i : String) :
    (combined_features_countries cpiR nhaR popR).Nodup ∧
    (c ∈ combined_features_countries cpiR nhaR popR ↔
      c ∈ cpiR.map CpiObsRow.country ∨ c ∈ nhaR.map NhaRow.country ∨
        c ∈ popR.map PopFeatRow.country) ∧
    (cpiWideCell sq cpiR c g =
      if (c, g) ∈ cpiR.map (fun r => (r.country, r.category)) then
        some ⟨listMean (cpiGroupVals cpiR c g),
          sampleStd sq (cpiGroupVals cpiR c g),
          listMeanOpt (yoyColumn (cpiGroupVals cpiR c g))⟩
      else none) ∧
    (nhaWideCell nhaR c i =
      if (c, i) ∈ nhaR.map (fun r => (r.country, r.indicator)) then
        some (listMean (nhaGroupVals nhaR c i))
      else none) ∧
    (popWideCell popR c =
      if c ∈ popR.map PopFeatRow.country then
        some (listMean ((popGroup popR c).map PopFeatRow.population),
          listMean ((popGroup popR c).map PopFeatRow.density))
      else none) := by
  refine ⟨?_, ?_, ?_, ?_, ?_⟩
  · exact outerUnion_nodup _ _
      (outerUnion_nodup _ _ (groupKeys_nodup _ _) (groupKeys_nodup _ _))
      (groupKeys_nodup _ _)
  · rw [combined_features_countries, mem_outerUnion, mem_outerUnion,
      mem_groupKeys, mem_groupKeys, mem_groupKeys]
    tauto
  · exact cpiWideCell_eq sq cpiR c g
  · exact nhaWideCell_eq nhaR c i
  · exact popWideCell_eq popR c

end NomadCompass

namespace NomadCompass

/-- C4 witness: the YoY characterisation instantiated on the aggregate
page's country group of a concrete one-country frame. -/
theorem yoy_change_groupwise_witness :
    yoyColumn ((countryGroup (sortByCountryTime
        [⟨"A", "F", 0, 100⟩, ⟨"A", "F", 1, 102⟩]) "A").map CpiObsRow.obs) =
      (List.range (countryGroup (sortByCountryTime
        [⟨"A", "F", 0, 100⟩, ⟨"A", "F", 1, 102⟩]) "A").length).map fun t =>
        if t < 4 then none
        else some
          ((((countryGroup (sortByCountryTime
              [⟨"A", "F", 0, 100⟩, ⟨"A", "F", 1, 102⟩]) "A").map
                CpiObsRow.obs).getD t 0 /
            ((countryGroup (sortByCountryTime
              [⟨"A", "F", 0, 100⟩, ⟨"A", "F", 1, 102⟩]) "A").map
                CpiObsRow.obs).getD (t - 4) 0 - 1) * 100) :=
  (yoy_change_groupwise [⟨"A", "F", 0, 100⟩, ⟨"A", "F", 1, 102⟩] "A" "F").2.2.2
    (countryGroup (sortByCountryTime
      [⟨"A", "F", 0, 100⟩, ⟨"A", "F", 1, 102⟩]) "A") (Or.inl rfl)

end NomadCompass
